import Mathlib

/-!
# Verification of the adaptive distinct-color discovery engine

Shallow embedding of `src/services/colorApi.js` from the
`akkio-color-swatches` repository: the memoizing lookup cache, the
single-point classifier wrapper `fetchColorData`, and the four-phase
adaptive discovery routine `fetchDistinctColors`.

The JavaScript code is asynchronous; each `discover` call has a single
logical control flow (batches awaited in order), so we model one call as a
sequential state transformer over the cache.  Remote `fetch` outcomes —
including rejection with `AbortError` when the `AbortSignal` is cancelled —
are supplied by an oracle `Api`; since every key is fetched at most once
per call, a point-indexed oracle captures any temporal cancellation
pattern.
-/

namespace ColorApi

/-- RGB payload extracted from the API response (`data.rgb.r/g/b`). -/
structure Rgb where
  red : Nat
  green : Nat
  blue : Nat
deriving DecidableEq, Repr

/-- The record built by `fetchColorData` and stored in the cache
(`colorData` in the source): hue/saturation/lightness of the query,
the (normalized) color name, and opaque payload fields. -/
structure ColorData where
  hue : Nat
  saturation : Nat
  lightness : Nat
  name : String
  rgb : Rgb
  hex : String
  hsl : String
deriving DecidableEq, Repr

/-- The JSON body of a successful API response, as far as the source
inspects it.  `rgb = none` models a missing `data.rgb` field.
`name = none` models a missing `data.name` object; `name = some none`
models a `name` object whose `value` field is absent, and
`name = some (some s)` a present `name.value` string (possibly `""`).
`hex`/`hsl` stand for `data.hex.value` / `data.hsl.value`, passed through
unmodified. -/
structure ApiData where
  rgb : Option Rgb
  name : Option (Option String)
  hex : String
  hsl : String
deriving DecidableEq, Repr

/-- Outcome of one `fetch` of `/id?hsl=h,s,l` as observed by
`fetchColorData`.  `aborted` models `fetch` rejecting with `AbortError`
because the `AbortSignal` passed in was (or became) cancelled;
`networkFailure` models any other rejection of `fetch`;
`httpError` models `response.ok` being false with the given status;
`success d` models a 2xx response whose parsed JSON body is `d`
(`none` = null body). -/
inductive FetchOutcome where
  | aborted
  | networkFailure
  | httpError (status : Nat)
  | success (data : Option ApiData)
deriving DecidableEq, Repr

/-- The remote classifier plus transport, as an oracle:
`api hue saturation lightness` is the outcome `fetch` would deliver for
that query.  A deterministic classifier is a fixed such function; an
already-cancelled token is the oracle that answers `aborted`
everywhere. -/
def Api : Type := Nat → Nat → Nat → FetchOutcome

/-- The error a failed `fetchColorData` call throws. -/
inductive FetchError where
  | abortError
  | networkError
  | apiError (status : Nat)
  | invalidStructure
deriving DecidableEq, Repr

/-- Cache key.  The source keys its `Map` by the string
`` `${hue},${saturation},${lightness}` ``; decimal renderings of naturals
contain no comma, so those strings are in bijection with the triples
`(hue, saturation, lightness)`, and we key by the triple directly. -/
def cacheKey (hue saturation lightness : Nat) : Nat × Nat × Nat :=
  (hue, saturation, lightness)

/-- A JavaScript `Map`, as an association list with unique keys
(`Map.set` replaces in place, so keys never repeat). -/
def ListMap (κ ν : Type) : Type := List (κ × ν)

/-- `m.get(k)` / `m.has(k)`: the binding of `k`, if present. -/
def ListMap.get? {κ ν : Type} [DecidableEq κ] (m : ListMap κ ν) (k : κ) :
    Option ν :=
  match m with
  | [] => none
  | (k', v) :: rest => if k' = k then some v else ListMap.get? rest k

/-- `m.set(k, v)`: JavaScript `Map.set` semantics — replace the binding
of `k` in place if present, otherwise append. -/
def ListMap.set {κ ν : Type} [DecidableEq κ] (m : ListMap κ ν) (k : κ)
    (v : ν) : ListMap κ ν :=
  match m with
  | [] => [(k, v)]
  | (k', v') :: rest =>
    if k' = k then (k, v) :: rest else (k', v') :: ListMap.set rest k v

/-- The keys of a map, in insertion order (`Array.from(m.keys())`). -/
def ListMap.keys {κ ν : Type} (m : ListMap κ ν) : List κ := m.map Prod.fst

/-- The module-level `cache` Map of `colorApi.js`. -/
def Cache : Type := ListMap (Nat × Nat × Nat) ColorData

instance : DecidableEq Cache := by unfold Cache ListMap; infer_instance

/-- The per-call `colorsByHue` Map of `fetchDistinctColors`. -/
def Session : Type := ListMap Nat ColorData

instance : DecidableEq Session := by unfold Session ListMap; infer_instance

/-- `data.name.value || 'Unnamed'`: a missing or empty (falsy) name value
is replaced by the sentinel `"Unnamed"`. -/
def normalizeName (value : Option String) : String :=
  match value with
  | some s => if s = "" then "Unnamed" else s
  | none => "Unnamed"

/-- The un-cached path of `fetchColorData`: perform the `fetch`, check
`response.ok`, validate `!data || !data.rgb || !data.name`, and build the
`colorData` record with the normalized name. -/
def remoteLookup (api : Api) (hue saturation lightness : Nat) :
    Except FetchError ColorData :=
  match api hue saturation lightness with
  | .aborted => .error .abortError
  | .networkFailure => .error .networkError
  | .httpError status => .error (.apiError status)
  | .success none => .error .invalidStructure
  | .success (some d) =>
    match d.rgb, d.name with
    | some rgbv, some nameValue =>
      .ok { hue := hue, saturation := saturation, lightness := lightness,
            name := normalizeName nameValue,
            rgb := rgbv, hex := d.hex, hsl := d.hsl }
    | some _, none => .error .invalidStructure
    | none, _ => .error .invalidStructure

/-- `fetchColorData(hue, saturation, lightness, signal)`: return the
cached result if the key is present; otherwise perform the remote lookup
and, on success, cache the result under its key.  Returns the
result (or thrown error) together with the cache after the call. -/
def fetchColorData (api : Api) (hue saturation lightness : Nat)
    (cache : Cache) : Except FetchError ColorData × Cache :=
  let key := cacheKey hue saturation lightness
  match cache.get? key with
  | some v => (.ok v, cache)
  | none =>
    match remoteLookup api hue saturation lightness with
    | .ok colorData => (.ok colorData, cache.set key colorData)
    | .error e => (.error e, cache)

/-- `BATCH_SIZE = 20` in `fetchDistinctColors`. -/
def BATCH_SIZE : Nat := 20

/-- Fuel-indexed worker for `chunksOf20`; the fuel (an upper bound on the
list length, so it never runs out) keeps the recursion structural. -/
def chunksGo : Nat → List Nat → List (List Nat)
  | _, [] => []
  | 0, _ => []
  | fuel + 1, x :: xs =>
    ((x :: xs).take BATCH_SIZE) :: chunksGo fuel ((x :: xs).drop BATCH_SIZE)

/-- Split a list into consecutive chunks of `BATCH_SIZE`
(`batch.slice(i, i + BATCH_SIZE)` for `i = 0, 20, 40, …`). -/
def chunksOf20 (l : List Nat) : List (List Nat) :=
  chunksGo l.length l

/-- One `Promise.all(chunk.map(hue => fetchColorData(...)))`.  All lookups
of the chunk run (each caching its own result on success); the results are
collected in chunk order, and the first rejection, if any, becomes the
rejection of the whole chunk.  Also records, in order, the hues actually
dispatched to the remote API (those not served from the cache). -/
def processChunk (api : Api) (saturation lightness : Nat)
    (chunk : List Nat) (cache : Cache) :
    Cache × List Nat × List ColorData × Option FetchError :=
  match chunk with
  | [] => (cache, [], [], none)
  | hue :: rest =>
    let dispatched := (cache.get? (cacheKey hue saturation lightness)).isNone
    let fc := fetchColorData api hue saturation lightness cache
    let pc := processChunk api saturation lightness rest fc.2
    let tr := if dispatched then hue :: pc.2.1 else pc.2.1
    match fc.1 with
    | .ok c => (pc.1, tr, c :: pc.2.2.1, pc.2.2.2)
    | .error e => (pc.1, tr, pc.2.2.1, some e)

/-- The chunk loop of `fetchBatch`: `await Promise.all` on each chunk in
order; a rejected chunk stops the loop (its error propagates and later
chunks are never dispatched). -/
def runChunks (api : Api) (saturation lightness : Nat)
    (chunks : List (List Nat)) (cache : Cache) :
    Cache × List Nat × List ColorData × Option FetchError :=
  match chunks with
  | [] => (cache, [], [], none)
  | chunk :: rest =>
    let pc := processChunk api saturation lightness chunk cache
    match pc.2.2.2 with
    | some e => (pc.1, pc.2.1, pc.2.2.1, some e)
    | none =>
      let rc := runChunks api saturation lightness rest pc.1
      (rc.1, pc.2.1 ++ rc.2.1, pc.2.2.1 ++ rc.2.2.1, rc.2.2.2)

/-- One step of `fetchBatch`'s first loop: a cached hue is processed
immediately into `colorsByHue`, an uncached one is pushed onto `batch`. -/
def partStep (saturation lightness : Nat) (cache : Cache)
    (acc : Session × List Nat) (hue : Nat) : Session × List Nat :=
  match cache.get? (cacheKey hue saturation lightness) with
  | some cached => (acc.1.set hue cached, acc.2)
  | none => (acc.1, acc.2 ++ [hue])

/-- The first loop of `fetchBatch`: walk `hues`, splitting them into
immediately-processed cached results and the `batch` still to fetch. -/
def partitionHues (saturation lightness : Nat) (cache : Cache)
    (hues : List Nat) (session : Session) : Session × List Nat :=
  hues.foldl (partStep saturation lightness cache) (session, [])

/-- `fetchBatch(hues)` from `fetchDistinctColors`: process cached hues
immediately into `colorsByHue`; fetch the uncached ones in bounded
chunks; on success store every fetched result into `colorsByHue`
(keyed by `color.hue`).  Returns the cache, the session map, the hues
dispatched remotely, and the error that aborted the batch, if any. -/
def fetchBatch (api : Api) (saturation lightness : Nat) (hues : List Nat)
    (cache : Cache) (session : Session) :
    Cache × Session × List Nat × Option FetchError :=
  let part := partitionHues saturation lightness cache hues session
  let session₁ := part.1
  let batch := part.2
  if batch.isEmpty then (cache, session₁, [], none)
  else
    let rc := runChunks api saturation lightness (chunksOf20 batch) cache
    match rc.2.2.2 with
    | some e => (rc.1, session₁, rc.2.1, some e)
    | none =>
      (rc.1, rc.2.2.1.foldl (fun s c => s.set c.hue c) session₁, rc.2.1, none)

/-- Phase 1 sampling points: `for (let h = 0; h < 360; h += 10)`. -/
def coarseHues : List Nat := (List.range 36).map (fun i => i * 10)

/-- Phase 2 of `fetchDistinctColors`: walk the coarse hues cyclically and
record `{start, end}` for each adjacent pair whose results are both
present, whose first name is not the sentinel, and whose names differ. -/
def boundaryRanges (coarse : List Nat) (session : Session) :
    List (Nat × Nat) :=
  (List.range coarse.length).filterMap (fun i =>
    let currentHue := coarse.getD i 0
    let nextHue := coarse.getD ((i + 1) % coarse.length) 0
    match session.get? currentHue, session.get? nextHue with
    | some currentColor, some nextColor =>
      if currentColor.name ≠ "Unnamed" ∧ currentColor.name ≠ nextColor.name
      then some (currentHue, nextHue) else none
    | _, _ => none)

/-- Phase 3 interior enumeration for one boundary range:
`if (end < start) end += 360; for (let h = start + 1; h < end; h++)
fillHues.push(h % 360)`. -/
def interiorHues (range : Nat × Nat) : List Nat :=
  let start := range.1
  let stop := if range.2 < range.1 then range.2 + 360 else range.2
  (List.range' (start + 1) (stop - (start + 1))).map (fun h => h % 360)

/-- The Phase 3 loop: one `fetchBatch` per boundary range with a
non-empty interior; an error stops the loop and propagates. -/
def refineRanges (api : Api) (saturation lightness : Nat)
    (ranges : List (Nat × Nat)) (cache : Cache) (session : Session) :
    Cache × Session × List Nat × Option FetchError :=
  match ranges with
  | [] => (cache, session, [], none)
  | range :: rest =>
    let fillHues := interiorHues range
    if fillHues.isEmpty then
      refineRanges api saturation lightness rest cache session
    else
      let fb := fetchBatch api saturation lightness fillHues cache session
      match fb.2.2.2 with
      | some e => (fb.1, fb.2.1, fb.2.2.1, some e)
      | none =>
        let rr := refineRanges api saturation lightness rest fb.1 fb.2.1
        (rr.1, rr.2.1, fb.2.2.1 ++ rr.2.2.1, rr.2.2.2)

/-- The Phase 4 iteration: walk the sorted hues, skip results with a
falsy or sentinel name, and keep the first occurrence of each name. -/
def collectLoop (session : Session) (hues : List Nat)
    (seenNames : List String) : List ColorData :=
  match hues with
  | [] => []
  | hue :: rest =>
    match session.get? hue with
    | none => collectLoop session rest seenNames
    | some color =>
      if color.name = "" ∨ color.name = "Unnamed" then
        collectLoop session rest seenNames
      else if color.name ∈ seenNames then
        collectLoop session rest seenNames
      else
        color :: collectLoop session rest (color.name :: seenNames)

/-- Phase 4 of `fetchDistinctColors`: sort the resolved hues ascending
(`Array.from(colorsByHue.keys()).sort((a, b) => a - b)`) and collect the
first occurrence of each non-sentinel name. -/
def collectDistinct (session : Session) : List ColorData :=
  let sortedHues := session.keys.insertionSort (· ≤ ·)
  collectLoop session sortedHues []

/-- Everything observable about one `fetchDistinctColors` call:
the value the returned promise settles with (`.ok` = the resolved
`distinctColors` array, `.error` = the rejection), the module cache after
the call, the final `colorsByHue` session map, and the hues dispatched to
the remote API, in dispatch order. -/
structure DiscoverOutcome where
  result : Except FetchError (List ColorData)
  cache : Cache
  session : Session
  trace : List Nat

instance {ε α : Type} [DecidableEq ε] [DecidableEq α] :
    DecidableEq (Except ε α) := fun a b =>
  match a, b with
  | .error e, .error f => decidable_of_iff (e = f) (by simp)
  | .error _, .ok _ => isFalse (by simp)
  | .ok _, .error _ => isFalse (by simp)
  | .ok x, .ok y => decidable_of_iff (x = y) (by simp)

instance : DecidableEq DiscoverOutcome := by
  intro a b
  cases a; cases b
  exact decidable_of_iff _ (Iff.of_eq (DiscoverOutcome.mk.injEq _ _ _ _ _ _ _ _)).symm

/-- `fetchDistinctColors(saturation, lightness, signal)`: Phase 1 coarse
sampling, Phase 2 boundary detection, Phase 3 per-range refinement,
Phase 4 collection.  Any error thrown by a batch propagates out of the
call unchanged. -/
def fetchDistinctColors (api : Api) (saturation lightness : Nat)
    (cache : Cache) : DiscoverOutcome :=
  let fb := fetchBatch api saturation lightness coarseHues cache []
  match fb.2.2.2 with
  | some e =>
    { result := .error e, cache := fb.1, session := fb.2.1,
      trace := fb.2.2.1 }
  | none =>
    let ranges := boundaryRanges coarseHues fb.2.1
    let rr := refineRanges api saturation lightness ranges fb.1 fb.2.1
    match rr.2.2.2 with
    | some e =>
      { result := .error e, cache := rr.1, session := rr.2.1,
        trace := fb.2.2.1 ++ rr.2.2.1 }
    | none =>
      { result := .ok (collectDistinct rr.2.1), cache := rr.1,
        session := rr.2.1, trace := fb.2.2.1 ++ rr.2.2.1 }

/-! ## Map lemmas -/

theorem ListMap.get?_nil {κ ν : Type} [DecidableEq κ] (k : κ) :
    ListMap.get? ([] : ListMap κ ν) k = none := rfl

theorem ListMap.get?_cons {κ ν : Type} [DecidableEq κ] (k₀ : κ) (v₀ : ν)
    (tl : ListMap κ ν) (k : κ) :
    ListMap.get? ((k₀, v₀) :: tl) k =
      if k₀ = k then some v₀ else ListMap.get? tl k := rfl

theorem ListMap.keys_nil {κ ν : Type} :
    ListMap.keys ([] : ListMap κ ν) = [] := rfl

theorem ListMap.keys_cons {κ ν : Type} (k₀ : κ) (v₀ : ν)
    (tl : ListMap κ ν) :
    ListMap.keys ((k₀, v₀) :: tl) = k₀ :: ListMap.keys tl := rfl

theorem ListMap.set_nil {κ ν : Type} [DecidableEq κ] (k : κ) (v : ν) :
    ListMap.set ([] : ListMap κ ν) k v = [(k, v)] := rfl

theorem ListMap.set_cons {κ ν : Type} [DecidableEq κ] (k₀ : κ) (v₀ : ν)
    (tl : ListMap κ ν) (k : κ) (v : ν) :
    ListMap.set ((k₀, v₀) :: tl) k v =
      if k₀ = k then (k, v) :: tl else (k₀, v₀) :: ListMap.set tl k v := rfl

theorem ListMap.get?_set_self {κ ν : Type} [DecidableEq κ]
    (m : ListMap κ ν) (k : κ) (v : ν) :
    ListMap.get? (ListMap.set m k v) k = some v := by
  induction m with
  | nil => simp [ListMap.set_nil, ListMap.get?_cons]
  | cons hd tl ih =>
    obtain ⟨k₀, v₀⟩ := hd
    rw [ListMap.set_cons]
    by_cases hk : k₀ = k
    · simp [hk, ListMap.get?_cons]
    · simp [hk, ListMap.get?_cons, ih]

theorem ListMap.get?_set_ne {κ ν : Type} [DecidableEq κ]
    (m : ListMap κ ν) (k k' : κ) (v : ν) (hne : k' ≠ k) :
    ListMap.get? (ListMap.set m k v) k' = ListMap.get? m k' := by
  have hne' : ¬ k = k' := fun h => hne h.symm
  induction m with
  | nil => simp [ListMap.set_nil, ListMap.get?_cons, ListMap.get?_nil, hne']
  | cons hd tl ih =>
    obtain ⟨k₀, v₀⟩ := hd
    rw [ListMap.set_cons]
    by_cases hk : k₀ = k
    · subst hk
      simp [ListMap.get?_cons, hne']
    · rw [if_neg hk, ListMap.get?_cons, ListMap.get?_cons, ih]

theorem ListMap.get?_mem_keys {κ ν : Type} [DecidableEq κ]
    {m : ListMap κ ν} {k : κ} {v : ν} (h : ListMap.get? m k = some v) :
    k ∈ ListMap.keys m := by
  induction m with
  | nil => simp [ListMap.get?_nil] at h
  | cons hd tl ih =>
    obtain ⟨k₀, v₀⟩ := hd
    rw [ListMap.get?_cons] at h
    rw [ListMap.keys_cons]
    by_cases hk : k₀ = k
    · simp [hk]
    · rw [if_neg hk] at h
      exact List.mem_cons_of_mem _ (ih h)

theorem ListMap.get?_isSome_of_mem_keys {κ ν : Type} [DecidableEq κ]
    {m : ListMap κ ν} {k : κ} (h : k ∈ ListMap.keys m) :
    (ListMap.get? m k).isSome := by
  induction m with
  | nil => simp [ListMap.keys_nil] at h
  | cons hd tl ih =>
    obtain ⟨k₀, v₀⟩ := hd
    rw [ListMap.keys_cons] at h
    rw [ListMap.get?_cons]
    by_cases hk : k₀ = k
    · simp [hk]
    · rw [if_neg hk]
      rcases List.mem_cons.mp h with h' | h'


      · exact absurd h'.symm hk
      · exact ih h'

theorem ListMap.keys_set {κ ν : Type} [DecidableEq κ]
    (m : ListMap κ ν) (k : κ) (v : ν) :
    ListMap.keys (ListMap.set m k v) =
      if k ∈ ListMap.keys m then ListMap.keys m
      else ListMap.keys m ++ [k] := by
  induction m with
  | nil => simp [ListMap.set_nil, ListMap.keys_nil, ListMap.keys_cons]
  | cons hd tl ih =>
    obtain ⟨k₀, v₀⟩ := hd
    rw [ListMap.set_cons]
    by_cases hk : k₀ = k
    · subst hk
      simp [ListMap.keys_cons]
    · have hne : ¬ k = k₀ := fun h => hk h.symm
      rw [if_neg hk, ListMap.keys_cons, ListMap.keys_cons, ih]
      by_cases hmem : k ∈ ListMap.keys tl
      · simp [hmem, hne]
      · simp [hmem, hne]

theorem ListMap.nodup_keys_set {κ ν : Type} [DecidableEq κ]
    (m : ListMap κ ν) (k : κ) (v : ν) (h : (ListMap.keys m).Nodup) :
    (ListMap.keys (ListMap.set m k v)).Nodup := by
  rw [ListMap.keys_set]
  by_cases hmem : k ∈ ListMap.keys m
  · simpa [hmem]
  · simp [hmem, List.nodup_append, h]

/-! ## Cache extension relations -/

/-- `c₂` retains every entry of `c₁` (the cache only grows, entries are
never overwritten or evicted). -/
def CacheLE (c₁ c₂ : Cache) : Prop :=
  ∀ k v, c₁.get? k = some v → c₂.get? k = some v

theorem CacheLE.rfl (c : Cache) : CacheLE c c := fun _ _ h => h

theorem CacheLE.trans_le {c₁ c₂ c₃ : Cache} (h₁ : CacheLE c₁ c₂)
    (h₂ : CacheLE c₂ c₃) : CacheLE c₁ c₃ :=
  fun k v h => h₂ k v (h₁ k v h)

theorem cacheLE_set_absent {c : Cache} {k : Nat × Nat × Nat}
    {v : ColorData} (h : c.get? k = none) : CacheLE c (c.set k v) := by
  intro k' v' h'
  rcases eq_or_ne k' k with rfl | hne
  · rw [h'] at h; cases h
  · rw [ListMap.get?_set_ne _ _ _ _ hne]; exact h'

/-- What a lookup of `hue` yields without touching the remote API more
than the code does: the cached value if present, the remote result
otherwise. -/
def resolve (api : Api) (saturation lightness : Nat) (cache : Cache)
    (hue : Nat) : Except FetchError ColorData :=
  match cache.get? (cacheKey hue saturation lightness) with
  | some v => .ok v
  | none => remoteLookup api hue saturation lightness

/-- `c'` extends `c` only with entries produced by successful remote
lookups for the session's saturation/lightness. -/
def GoodExt (api : Api) (saturation lightness : Nat) (c c' : Cache) :
    Prop :=
  CacheLE c c' ∧
  ∀ k v, c'.get? k = some v → c.get? k = some v ∨
    ∃ h, k = cacheKey h saturation lightness ∧
      remoteLookup api h saturation lightness = .ok v

theorem GoodExt.refl (api : Api) (s l : Nat) (c : Cache) :
    GoodExt api s l c c :=
  ⟨CacheLE.rfl c, fun _ _ h => Or.inl h⟩

theorem GoodExt.trans {api : Api} {s l : Nat} {c₁ c₂ c₃ : Cache}
    (h₁ : GoodExt api s l c₁ c₂) (h₂ : GoodExt api s l c₂ c₃) :
    GoodExt api s l c₁ c₃ := by
  refine ⟨h₁.1.trans_le h₂.1, fun k v h => ?_⟩
  rcases h₂.2 k v h with h' | h'
  · exact h₁.2 k v h'
  · exact Or.inr h'

theorem GoodExt.cacheLE {api : Api} {s l : Nat} {c c' : Cache}
    (h : GoodExt api s l c c') : CacheLE c c' := h.1

/-- A good extension does not change what any hue resolves to. -/
theorem GoodExt.resolve_eq {api : Api} {s l : Nat} {c c' : Cache}
    (hext : GoodExt api s l c c') (h : Nat) :
    resolve api s l c' h = resolve api s l c h := by
  unfold resolve
  cases hc : c.get? (cacheKey h s l) with
  | some v => rw [hext.1 _ _ hc]
  | none =>
    cases hc' : ListMap.get? c' (cacheKey h s l) with
    | none => rfl
    | some v =>
      rcases hext.2 _ _ hc' with h' | ⟨h₀, hk, hr⟩
      · rw [h'] at hc; cases hc
      · have : h₀ = h := by
          have := congrArg Prod.fst hk
          simpa [cacheKey] using this.symm
        rw [← this, hr]

/-- A resolve error is always an error of the remote lookup itself (the
cached branch cannot fail). -/
theorem resolve_error {api : Api} {s l : Nat} {c : Cache} {h : Nat}
    {e : FetchError} (he : resolve api s l c h = .error e) :
    remoteLookup api h s l = .error e := by
  unfold resolve at he
  cases hc : c.get? (cacheKey h s l) with
  | some v => rw [hc] at he; cases he
  | none => rw [hc] at he; exact he

/-- Every cache entry records the query that produced it. -/
def WFCache (c : Cache) : Prop :=
  ∀ k v, c.get? k = some v → k = cacheKey v.hue v.saturation v.lightness

/-- A successful remote lookup echoes its query coordinates and never
returns an empty name. -/
theorem remoteLookup_ok {api : Api} {h s l : Nat} {d : ColorData}
    (hd : remoteLookup api h s l = .ok d) :
    d.hue = h ∧ d.saturation = s ∧ d.lightness = l ∧ d.name ≠ "" := by
  unfold remoteLookup at hd
  cases hapi : api h s l with
  | aborted => rw [hapi] at hd; cases hd
  | networkFailure => rw [hapi] at hd; cases hd
  | httpError st => rw [hapi] at hd; cases hd
  | success o =>
    rw [hapi] at hd
    cases o with
    | none => cases hd
    | some dta =>
      cases hrgb : dta.rgb with
      | none => simp [hrgb] at hd
      | some rgbv =>
        cases hname : dta.name with
        | none => simp [hrgb, hname] at hd
        | some nv =>
          simp only [hrgb, hname] at hd
          cases hd
          refine ⟨rfl, rfl, rfl, ?_⟩
          unfold normalizeName
          cases nv with
          | none => simp
          | some str =>
            by_cases hstr : str = "" <;> simp [hstr]

/-- A good extension of a well-formed cache is well-formed. -/
theorem WFCache.of_goodExt {api : Api} {s l : Nat} {c c' : Cache}
    (hwf : WFCache c) (hext : GoodExt api s l c c') : WFCache c' := by
  intro k v h
  rcases hext.2 k v h with h' | ⟨h₀, hk, hr⟩
  · exact hwf k v h'
  · obtain ⟨hh, hs, hl, _⟩ := remoteLookup_ok hr
    rw [hk, hh, hs, hl]

/-! ## fetchColorData lemmas -/

theorem fetchColorData_fst (api : Api) (h s l : Nat) (c : Cache) :
    (fetchColorData api h s l c).1 = resolve api s l c h := by
  unfold fetchColorData resolve
  cases hc : c.get? (cacheKey h s l) with
  | some v => simp [hc]
  | none =>
    cases hr : remoteLookup api h s l with
    | ok d => simp [hc, hr]
    | error e => simp [hc, hr]

theorem fetchColorData_goodExt (api : Api) (h s l : Nat) (c : Cache) :
    GoodExt api s l c (fetchColorData api h s l c).2 := by
  unfold fetchColorData
  cases hc : c.get? (cacheKey h s l) with
  | some v => simp only [hc]; exact GoodExt.refl api s l c
  | none =>
    cases hr : remoteLookup api h s l with
    | error e => simp only [hc, hr]; exact GoodExt.refl api s l c
    | ok d =>
      simp only [hc, hr]
      refine ⟨cacheLE_set_absent hc, fun k v hv => ?_⟩
      rcases eq_or_ne k (cacheKey h s l) with rfl | hne
      · rw [ListMap.get?_set_self] at hv
        cases hv
        exact Or.inr ⟨h, rfl, hr⟩
      · rw [ListMap.get?_set_ne _ _ _ _ hne] at hv
        exact Or.inl hv

theorem fetchColorData_caches_ok {api : Api} {h s l : Nat} {c : Cache}
    {d : ColorData} (hd : (fetchColorData api h s l c).1 = .ok d) :
    (fetchColorData api h s l c).2.get? (cacheKey h s l) = some d := by
  unfold fetchColorData at hd ⊢
  cases hc : c.get? (cacheKey h s l) with
  | some v => simp only [hc] at hd ⊢; cases hd; exact hc.symm ▸ rfl
  | none =>
    cases hr : remoteLookup api h s l with
    | error e => simp [hc, hr] at hd
    | ok d' =>
      simp only [hc, hr] at hd ⊢
      cases hd
      exact ListMap.get?_set_self _ _ _

theorem fetchColorData_cache_of_error {api : Api} {h s l : Nat}
    {c : Cache} {e : FetchError}
    (he : (fetchColorData api h s l c).1 = .error e) :
    (fetchColorData api h s l c).2 = c := by
  unfold fetchColorData at he ⊢
  cases hc : c.get? (cacheKey h s l) with
  | some v => simp [hc] at he
  | none =>
    cases hr : remoteLookup api h s l with
    | error e' => simp [hc, hr]
    | ok d => simp [hc, hr] at he

/-! ## Batch-level lemmas -/

theorem cacheLE_none {c c' : Cache} (h : CacheLE c c')
    {k : Nat × Nat × Nat} (h' : ListMap.get? c' k = none) :
    ListMap.get? c k = none := by
  cases hc : ListMap.get? c k with
  | none => rfl
  | some v => rw [h _ _ hc] at h'; cases h'

/-- Resolve a whole list of hues against one fixed cache; `none` if any
of them would fail. -/
def resolveAll (api : Api) (saturation lightness : Nat) (cache : Cache) :
    List Nat → Option (List ColorData)
  | [] => some []
  | h :: rest =>
    match resolve api saturation lightness cache h with
    | .ok d => (resolveAll api saturation lightness cache rest).map (d :: ·)
    | .error _ => none

theorem resolveAll_nil (api : Api) (s l : Nat) (c : Cache) :
    resolveAll api s l c [] = some [] := rfl

theorem resolveAll_cons (api : Api) (s l : Nat) (c : Cache) (hd : Nat)
    (tl : List Nat) :
    resolveAll api s l c (hd :: tl) =
      match resolve api s l c hd with
      | .ok d => (resolveAll api s l c tl).map (d :: ·)
      | .error _ => none := rfl

/-- Characterization used to take `resolveAll` apart: it is `some oks`
iff every hue resolves and `oks` is the pointwise list of values. -/
theorem resolveAll_cons_some {api : Api} {s l : Nat} {c : Cache}
    {hd : Nat} {tl : List Nat} {oks : List ColorData}
    (h : resolveAll api s l c (hd :: tl) = some oks) :
    ∃ d rest, resolve api s l c hd = .ok d ∧
      resolveAll api s l c tl = some rest ∧ oks = d :: rest := by
  rw [resolveAll_cons] at h
  cases hr : resolve api s l c hd with
  | error e => rw [hr] at h; cases h
  | ok d =>
    rw [hr] at h
    cases htl : resolveAll api s l c tl with
    | none => rw [htl] at h; cases h
    | some xs =>
      rw [htl] at h
      simp only [Option.map] at h
      cases h
      exact ⟨d, xs, rfl, rfl, rfl⟩

theorem resolveAll_cons_of {api : Api} {s l : Nat} {c : Cache}
    {hd : Nat} {tl : List Nat} {d : ColorData} {rest : List ColorData}
    (h₁ : resolve api s l c hd = .ok d)
    (h₂ : resolveAll api s l c tl = some rest) :
    resolveAll api s l c (hd :: tl) = some (d :: rest) := by
  rw [resolveAll_cons, h₁, h₂]
  rfl

theorem resolveAll_congr {api : Api} {s l : Nat} {c₁ c₂ : Cache}
    (h : ∀ hu, resolve api s l c₁ hu = resolve api s l c₂ hu)
    (hs : List Nat) :
    resolveAll api s l c₁ hs = resolveAll api s l c₂ hs := by
  induction hs with
  | nil => rfl
  | cons hd tl ih => rw [resolveAll_cons, resolveAll_cons, h hd, ih]

theorem resolveAll_append_some {api : Api} {s l : Nat} {c : Cache}
    {a b : List Nat} {x y : List ColorData}
    (ha : resolveAll api s l c a = some x)
    (hb : resolveAll api s l c b = some y) :
    resolveAll api s l c (a ++ b) = some (x ++ y) := by
  induction a generalizing x with
  | nil =>
    rw [resolveAll_nil] at ha
    cases ha
    simpa using hb
  | cons hd tl ih =>
    obtain ⟨d, rest, hr, htl, rfl⟩ := resolveAll_cons_some ha
    rw [List.cons_append, List.cons_append]
    exact resolveAll_cons_of hr (ih htl)

theorem resolveAll_mem_ok {api : Api} {s l : Nat} {c : Cache}
    {hs : List Nat} {oks : List ColorData}
    (h : resolveAll api s l c hs = some oks) :
    ∀ hu ∈ hs, ∃ d, resolve api s l c hu = .ok d ∧ d ∈ oks := by
  induction hs generalizing oks with
  | nil => intro hu hmem; cases hmem
  | cons hd tl ih =>
    intro hu hmem
    obtain ⟨d, rest, hr, htl, rfl⟩ := resolveAll_cons_some h
    rcases List.mem_cons.mp hmem with rfl | hmem'
    · exact ⟨d, hr, List.mem_cons_self _ _⟩
    · obtain ⟨d', hd', hmem''⟩ := ih htl hu hmem'
      exact ⟨d', hd', List.mem_cons_of_mem _ hmem''⟩

theorem resolveAll_mem_of_mem {api : Api} {s l : Nat} {c : Cache}
    {hs : List Nat} {oks : List ColorData}
    (h : resolveAll api s l c hs = some oks) :
    ∀ d ∈ oks, ∃ hu ∈ hs, resolve api s l c hu = .ok d := by
  induction hs generalizing oks with
  | nil =>
    rw [resolveAll_nil] at h
    cases h
    intro d hd; cases hd
  | cons hd tl ih =>
    intro d hmem
    obtain ⟨d₀, rest, hr, htl, rfl⟩ := resolveAll_cons_some h
    rcases List.mem_cons.mp hmem with rfl | hmem'
    · exact ⟨hd, List.mem_cons_self _ _, hr⟩
    · obtain ⟨hu, hhu, hres⟩ := ih htl d hmem'
      exact ⟨hu, List.mem_cons_of_mem _ hhu, hres⟩

theorem processChunk_goodExt (api : Api) (s l : Nat) (chunk : List Nat)
    (c : Cache) : GoodExt api s l c (processChunk api s l chunk c).1 := by
  induction chunk generalizing c with
  | nil => exact GoodExt.refl api s l c
  | cons hd tl ih =>
    unfold processChunk
    have hfc := fetchColorData_goodExt api hd s l c
    cases hr : (fetchColorData api hd s l c).1 with
    | ok d =>
      simp only [← hr]
      cases hfetch : fetchColorData api hd s l c with
      | mk r c₁ =>
        rw [hfetch] at hr hfc
        simp only at hr hfc
        subst hr
        simp only
        exact hfc.trans (ih c₁)
    | error e =>
      cases hfetch : fetchColorData api hd s l c with
      | mk r c₁ =>
        rw [hfetch] at hr hfc
        simp only at hr hfc
        subst hr
        simp only
        exact hfc.trans (ih c₁)

theorem processChunk_trace_sublist (api : Api) (s l : Nat)
    (chunk : List Nat) (c : Cache) :
    (processChunk api s l chunk c).2.1.Sublist chunk := by
  induction chunk generalizing c with
  | nil => exact List.Sublist.refl _
  | cons hd tl ih =>
    unfold processChunk
    cases hfetch : fetchColorData api hd s l c with
    | mk r c₁ =>
      simp only
      cases r with
      | ok d =>
        by_cases hdys : (ListMap.get? c (cacheKey hd s l)).isNone
        · simp only [hdys, if_pos, if_true]
          exact (ih c₁).cons₂ hd
        · simp only [hdys, if_false]
          exact (ih c₁).cons hd
      | error e =>
        by_cases hdys : (ListMap.get? c (cacheKey hd s l)).isNone
        · simp only [hdys, if_true]
          exact (ih c₁).cons₂ hd
        · simp only [hdys, if_false]
          exact (ih c₁).cons hd

theorem processChunk_trace_uncached (api : Api) (s l : Nat)
    (chunk : List Nat) (c : Cache) :
    ∀ h ∈ (processChunk api s l chunk c).2.1,
      ListMap.get? c (cacheKey h s l) = none := by
  induction chunk generalizing c with
  | nil => intro h hmem; cases hmem
  | cons hd tl ih =>
    intro h hmem
    have hle : CacheLE c (fetchColorData api hd s l c).2 :=
      (fetchColorData_goodExt api hd s l c).cacheLE
    unfold processChunk at hmem
    cases hr : (fetchColorData api hd s l c).1 with
    | ok d =>
      simp only [hr] at hmem
      by_cases hdis : (ListMap.get? c (cacheKey hd s l)).isNone
      · simp only [hdis, if_true] at hmem
        rcases List.mem_cons.mp hmem with rfl | hmem'
        · exact Option.isNone_iff_eq_none.mp hdis
        · exact cacheLE_none hle (ih _ h hmem')
      · simp only [hdis, if_false] at hmem
        exact cacheLE_none hle (ih _ h hmem)
    | error e =>
      simp only [hr] at hmem
      by_cases hdis : (ListMap.get? c (cacheKey hd s l)).isNone
      · simp only [hdis, if_true] at hmem
        rcases List.mem_cons.mp hmem with rfl | hmem'
        · exact Option.isNone_iff_eq_none.mp hdis
        · exact cacheLE_none hle (ih _ h hmem')
      · simp only [hdis, if_false] at hmem
        exact cacheLE_none hle (ih _ h hmem)

theorem processChunk_ok_cached (api : Api) (s l : Nat)
    (chunk : List Nat) (c : Cache) :
    ∀ h ∈ chunk, ∀ d, resolve api s l c h = .ok d →
      ListMap.get? (processChunk api s l chunk c).1 (cacheKey h s l) =
        some d := by
  induction chunk generalizing c with
  | nil => intro h hmem; cases hmem
  | cons hd tl ih =>
    intro h hmem d hres
    have hext := fetchColorData_goodExt api hd s l c
    unfold processChunk
    have hgoal :
        ListMap.get?
          (processChunk api s l tl (fetchColorData api hd s l c).2).1
          (cacheKey h s l) = some d := by
      rcases List.mem_cons.mp hmem with rfl | hmem'
      · have hfst : (fetchColorData api h s l c).1 = .ok d := by
          rw [fetchColorData_fst]; exact hres
        have hcached := fetchColorData_caches_ok hfst
        exact (processChunk_goodExt api s l tl _).cacheLE _ _ hcached
      · have hres' : resolve api s l (fetchColorData api hd s l c).2 h =
            .ok d := by
          rw [hext.resolve_eq]; exact hres
        exact ih _ h hmem' d hres'
    cases hr : (fetchColorData api hd s l c).1 with
    | ok d₀ => simp only [hr]; exact hgoal
    | error e => simp only [hr]; exact hgoal

theorem processChunk_err_none (api : Api) (s l : Nat)
    (chunk : List Nat) (c : Cache)
    (herr : (processChunk api s l chunk c).2.2.2 = none) :
    resolveAll api s l c chunk =
      some (processChunk api s l chunk c).2.2.1 := by
  induction chunk generalizing c with
  | nil => rfl
  | cons hd tl ih =>
    have hext := fetchColorData_goodExt api hd s l c
    unfold processChunk at herr ⊢
    cases hr : (fetchColorData api hd s l c).1 with
    | error e => simp only [hr] at herr; exact Option.noConfusion herr
    | ok d =>
      simp only [hr] at herr ⊢
      have htl := ih _ herr
      have htl' : resolveAll api s l c tl =
          some (processChunk api s l tl (fetchColorData api hd s l c).2).2.2.1 := by
        rw [resolveAll_congr (fun hu => (hext.resolve_eq hu).symm) tl]
        exact htl
      have hres : resolve api s l c hd = .ok d := by
        rw [← fetchColorData_fst]; exact hr
      exact resolveAll_cons_of hres htl'

theorem processChunk_err_some (api : Api) (s l : Nat)
    (chunk : List Nat) (c : Cache) (e : FetchError)
    (herr : (processChunk api s l chunk c).2.2.2 = some e) :
    ∃ h ∈ chunk, resolve api s l c h = .error e := by
  induction chunk generalizing c with
  | nil => cases herr
  | cons hd tl ih =>
    have hext := fetchColorData_goodExt api hd s l c
    unfold processChunk at herr
    cases hr : (fetchColorData api hd s l c).1 with
    | error e₀ =>
      simp only [hr, Option.some.injEq] at herr
      subst herr
      refine ⟨hd, List.mem_cons_self _ _, ?_⟩
      rw [← fetchColorData_fst]; exact hr
    | ok d =>
      simp only [hr] at herr
      obtain ⟨h, hmem, hres⟩ := ih _ herr
      refine ⟨h, List.mem_cons_of_mem _ hmem, ?_⟩
      rw [← hext.resolve_eq]; exact hres

theorem processChunk_errs_of_mem (api : Api) (s l : Nat)
    (chunk : List Nat) (c : Cache) :
    ∀ h ∈ chunk, ∀ e, resolve api s l c h = .error e →
      (processChunk api s l chunk c).2.2.2.isSome := by
  induction chunk generalizing c with
  | nil => intro h hmem; cases hmem
  | cons hd tl ih =>
    intro h hmem e hres
    have hext := fetchColorData_goodExt api hd s l c
    unfold processChunk
    cases hr : (fetchColorData api hd s l c).1 with
    | error e₀ => simp [hr]
    | ok d =>
      simp only [hr]
      rcases List.mem_cons.mp hmem with rfl | hmem'
      · rw [fetchColorData_fst] at hr
        rw [hres] at hr
        cases hr
      · have hres' : resolve api s l (fetchColorData api hd s l c).2 h =
            .error e := by
          rw [hext.resolve_eq]; exact hres
        exact ih _ h hmem' e hres'

theorem processChunk_trace_ok_cached (api : Api) (s l : Nat)
    (chunk : List Nat) (c : Cache) :
    ∀ h ∈ (processChunk api s l chunk c).2.1, ∀ d,
      remoteLookup api h s l = .ok d →
      ListMap.get? (processChunk api s l chunk c).1 (cacheKey h s l) =
        some d := by
  intro h hmem d hr
  have huncached := processChunk_trace_uncached api s l chunk c h hmem
  have hres : resolve api s l c h = .ok d := by
    unfold resolve
    rw [huncached]
    exact hr
  exact processChunk_ok_cached api s l chunk c h
    ((processChunk_trace_sublist api s l chunk c).mem hmem) d hres

/-! ## runChunks lemmas -/

theorem runChunks_goodExt (api : Api) (s l : Nat)
    (chunks : List (List Nat)) (c : Cache) :
    GoodExt api s l c (runChunks api s l chunks c).1 := by
  induction chunks generalizing c with
  | nil => exact GoodExt.refl api s l c
  | cons chunk rest ih =>
    have hpc := processChunk_goodExt api s l chunk c
    unfold runChunks
    cases herr : (processChunk api s l chunk c).2.2.2 with
    | some e => simp only [herr]; exact hpc
    | none => simp only [herr]; exact hpc.trans (ih _)

theorem runChunks_trace_sublist (api : Api) (s l : Nat)
    (chunks : List (List Nat)) (c : Cache) :
    (runChunks api s l chunks c).2.1.Sublist chunks.flatten := by
  induction chunks generalizing c with
  | nil => simp [runChunks]
  | cons chunk rest ih =>
    have hpc := processChunk_trace_sublist api s l chunk c
    unfold runChunks
    cases herr : (processChunk api s l chunk c).2.2.2 with
    | some e =>
      simp only [herr, List.flatten_cons]
      exact hpc.trans (List.sublist_append_left _ _)
    | none =>
      simp only [herr, List.flatten_cons]
      exact hpc.append (ih _)

theorem runChunks_trace_uncached (api : Api) (s l : Nat)
    (chunks : List (List Nat)) (c : Cache) :
    ∀ h ∈ (runChunks api s l chunks c).2.1,
      ListMap.get? c (cacheKey h s l) = none := by
  induction chunks generalizing c with
  | nil => intro h hmem; cases hmem
  | cons chunk rest ih =>
    intro h hmem
    have hle := (processChunk_goodExt api s l chunk c).cacheLE
    unfold runChunks at hmem
    cases herr : (processChunk api s l chunk c).2.2.2 with
    | some e =>
      simp only [herr] at hmem
      exact processChunk_trace_uncached api s l chunk c h hmem
    | none =>
      simp only [herr] at hmem
      rcases List.mem_append.mp hmem with hmem' | hmem'
      · exact processChunk_trace_uncached api s l chunk c h hmem'
      · exact cacheLE_none hle (ih _ h hmem')

theorem runChunks_ok_cached (api : Api) (s l : Nat)
    (chunks : List (List Nat)) (c : Cache) :
    ∀ h ∈ chunks.flatten, ∀ d, resolve api s l c h = .ok d →
      (runChunks api s l chunks c).2.2.2 = none →
      ListMap.get? (runChunks api s l chunks c).1 (cacheKey h s l) =
        some d := by
  induction chunks generalizing c with
  | nil => intro h hmem; cases hmem
  | cons chunk rest ih =>
    intro h hmem d hres herr₀
    have hpcext := processChunk_goodExt api s l chunk c
    unfold runChunks at herr₀ ⊢
    cases herr : (processChunk api s l chunk c).2.2.2 with
    | some e => simp only [herr] at herr₀; exact Option.noConfusion herr₀
    | none =>
      simp only [herr, List.flatten_cons] at herr₀ hmem ⊢
      rcases List.mem_append.mp hmem with hmem' | hmem'
      · have hcached := processChunk_ok_cached api s l chunk c h hmem' d hres
        exact (runChunks_goodExt api s l rest _).cacheLE _ _ hcached
      · have hres' : resolve api s l (processChunk api s l chunk c).1 h =
            .ok d := by
          rw [hpcext.resolve_eq]; exact hres
        exact ih _ h hmem' d hres' herr₀

theorem runChunks_err_none (api : Api) (s l : Nat)
    (chunks : List (List Nat)) (c : Cache)
    (herr : (runChunks api s l chunks c).2.2.2 = none) :
    resolveAll api s l c chunks.flatten =
      some (runChunks api s l chunks c).2.2.1 := by
  induction chunks generalizing c with
  | nil => rfl
  | cons chunk rest ih =>
    have hpcext := processChunk_goodExt api s l chunk c
    unfold runChunks at herr ⊢
    cases herr₁ : (processChunk api s l chunk c).2.2.2 with
    | some e => simp only [herr₁] at herr; exact Option.noConfusion herr
    | none =>
      simp only [herr₁] at herr ⊢
      have h₁ := processChunk_err_none api s l chunk c herr₁
      have h₂ := ih _ herr
      have h₂' : resolveAll api s l c rest.flatten =
          some (runChunks api s l rest (processChunk api s l chunk c).1).2.2.1 := by
        rw [resolveAll_congr (fun hu => (hpcext.resolve_eq hu).symm)]
        exact h₂
      rw [List.flatten_cons]
      exact resolveAll_append_some h₁ h₂'

theorem runChunks_err_some (api : Api) (s l : Nat)
    (chunks : List (List Nat)) (c : Cache) (e : FetchError)
    (herr : (runChunks api s l chunks c).2.2.2 = some e) :
    ∃ h ∈ chunks.flatten, resolve api s l c h = .error e := by
  induction chunks generalizing c with
  | nil => cases herr
  | cons chunk rest ih =>
    have hpcext := processChunk_goodExt api s l chunk c
    unfold runChunks at herr
    cases herr₁ : (processChunk api s l chunk c).2.2.2 with
    | some e₀ =>
      simp only [herr₁, Option.some.injEq] at herr
      subst herr
      obtain ⟨h, hmem, hres⟩ := processChunk_err_some api s l chunk c _ herr₁
      exact ⟨h, by simp [List.flatten_cons, hmem], hres⟩
    | none =>
      simp only [herr₁] at herr
      obtain ⟨h, hmem, hres⟩ := ih _ herr
      refine ⟨h, by simp [List.flatten_cons, hmem], ?_⟩
      rw [← hpcext.resolve_eq]; exact hres

theorem runChunks_errs_of_mem (api : Api) (s l : Nat)
    (chunks : List (List Nat)) (c : Cache) :
    ∀ h ∈ chunks.flatten, ∀ e, resolve api s l c h = .error e →
      (runChunks api s l chunks c).2.2.2.isSome := by
  induction chunks generalizing c with
  | nil => intro h hmem; cases hmem
  | cons chunk rest ih =>
    intro h hmem e hres
    have hpcext := processChunk_goodExt api s l chunk c
    unfold runChunks
    cases herr : (processChunk api s l chunk c).2.2.2 with
    | some e₀ => simp [herr]
    | none =>
      simp only [herr]
      rw [List.flatten_cons] at hmem
      rcases List.mem_append.mp hmem with hmem' | hmem'
      · have := processChunk_errs_of_mem api s l chunk c h hmem' e hres
        rw [herr] at this
        cases this
      · have hres' : resolve api s l (processChunk api s l chunk c).1 h =
            .error e := by
          rw [hpcext.resolve_eq]; exact hres
        exact ih _ h hmem' e hres'

theorem runChunks_trace_ok_cached (api : Api) (s l : Nat)
    (chunks : List (List Nat)) (c : Cache) :
    ∀ h ∈ (runChunks api s l chunks c).2.1, ∀ d,
      remoteLookup api h s l = .ok d →
      ListMap.get? (runChunks api s l chunks c).1 (cacheKey h s l) =
        some d := by
  induction chunks generalizing c with
  | nil => intro h hmem; cases hmem
  | cons chunk rest ih =>
    intro h hmem d hr
    unfold runChunks at hmem ⊢
    cases herr : (processChunk api s l chunk c).2.2.2 with
    | some e =>
      simp only [herr] at hmem ⊢
      exact processChunk_trace_ok_cached api s l chunk c h hmem d hr
    | none =>
      simp only [herr] at hmem ⊢
      rcases List.mem_append.mp hmem with hmem' | hmem'
      · have hcached :=
          processChunk_trace_ok_cached api s l chunk c h hmem' d hr
        exact (runChunks_goodExt api s l rest _).cacheLE _ _ hcached
      · exact ih _ h hmem' d hr

/-! ## chunksOf20 lemmas -/

theorem chunksGo_flatten : ∀ (fuel : Nat) (l : List Nat),
    l.length ≤ fuel → (chunksGo fuel l).flatten = l := by
  intro fuel
  induction fuel with
  | zero =>
    intro l hl
    cases l with
    | nil => rfl
    | cons x xs => simp at hl
  | succ n ih =>
    intro l hl
    cases l with
    | nil => rfl
    | cons x xs =>
      unfold chunksGo
      rw [List.flatten_cons, ih _ (by simp [List.length_drop, BATCH_SIZE] at hl ⊢; omega),
        List.take_append_drop]

theorem chunksOf20_flatten (l : List Nat) : (chunksOf20 l).flatten = l :=
  chunksGo_flatten l.length l (Nat.le_refl _)

/-! ## Partition and session-fold lemmas -/

theorem partition_batch (s l : Nat) (cache : Cache) (hues : List Nat) :
    ∀ acc : Session × List Nat,
      (hues.foldl (partStep s l cache) acc).2 =
        acc.2 ++ hues.filter
          (fun h => (ListMap.get? cache (cacheKey h s l)).isNone) := by
  induction hues with
  | nil => intro acc; simp
  | cons hd tl ih =>
    intro acc
    rw [List.foldl_cons, ih]
    unfold partStep
    cases hc : ListMap.get? cache (cacheKey hd s l) with
    | some v => simp [List.filter_cons, hc]
    | none => simp [List.filter_cons, hc]

theorem partition_sess_not_mem (s l : Nat) (cache : Cache)
    (hues : List Nat) {h : Nat} (hmem : h ∉ hues) :
    ∀ acc : Session × List Nat,
      ListMap.get? (hues.foldl (partStep s l cache) acc).1 h =
        ListMap.get? acc.1 h := by
  induction hues with
  | nil => intro acc; rfl
  | cons hd tl ih =>
    intro acc
    have hne : h ≠ hd := fun hEq => hmem (hEq ▸ List.mem_cons_self _ _)
    have htl : h ∉ tl := fun h' => hmem (List.mem_cons_of_mem _ h')
    rw [List.foldl_cons, ih htl]
    unfold partStep
    cases hc : ListMap.get? cache (cacheKey hd s l) with
    | some v => simp only; exact ListMap.get?_set_ne _ _ _ _ hne
    | none => rfl

theorem partition_sess_uncached (s l : Nat) (cache : Cache)
    (hues : List Nat) {h : Nat}
    (hc : ListMap.get? cache (cacheKey h s l) = none) :
    ∀ acc : Session × List Nat,
      ListMap.get? (hues.foldl (partStep s l cache) acc).1 h =
        ListMap.get? acc.1 h := by
  induction hues with
  | nil => intro acc; rfl
  | cons hd tl ih =>
    intro acc
    rw [List.foldl_cons, ih]
    unfold partStep
    cases hc' : ListMap.get? cache (cacheKey hd s l) with
    | some v =>
      have hne : h ≠ hd := by
        intro hEq
        rw [hEq, hc'] at hc
        cases hc
      simp only
      exact ListMap.get?_set_ne _ _ _ _ hne
    | none => rfl

theorem partition_sess_cached (s l : Nat) (cache : Cache)
    (hues : List Nat) {h : Nat} {v : ColorData}
    (hc : ListMap.get? cache (cacheKey h s l) = some v) :
    ∀ acc : Session × List Nat, h ∈ hues →
      ListMap.get? (hues.foldl (partStep s l cache) acc).1 h = some v := by
  induction hues with
  | nil => intro acc hmem; cases hmem
  | cons hd tl ih =>
    intro acc hmem
    rw [List.foldl_cons]
    by_cases htl : h ∈ tl
    · exact ih _ htl
    · have hhd : h = hd := by
        rcases List.mem_cons.mp hmem with hEq | h'
        · exact hEq
        · exact absurd h' htl
      subst hhd
      rw [partition_sess_not_mem s l cache tl htl]
      unfold partStep
      rw [hc]
      simp only
      exact ListMap.get?_set_self _ _ _

theorem partition_keys_nodup (s l : Nat) (cache : Cache)
    (hues : List Nat) :
    ∀ acc : Session × List Nat, (ListMap.keys acc.1).Nodup →
      (ListMap.keys (hues.foldl (partStep s l cache) acc).1).Nodup := by
  induction hues with
  | nil => intro acc h; exact h
  | cons hd tl ih =>
    intro acc hacc
    rw [List.foldl_cons]
    refine ih _ ?_
    unfold partStep
    cases hc : ListMap.get? cache (cacheKey hd s l) with
    | some v => exact ListMap.nodup_keys_set _ _ _ hacc
    | none => exact hacc

theorem sessFold_not_mem (oks : List ColorData) (sess : Session)
    (h : Nat) (hne : ∀ d ∈ oks, d.hue ≠ h) :
    ListMap.get? (oks.foldl (fun (s : Session) c => s.set c.hue c) sess) h =
      ListMap.get? sess h := by
  induction oks generalizing sess with
  | nil => rfl
  | cons d rest ih =>
    rw [List.foldl_cons]
    rw [ih _ (fun d' hd' => hne d' (List.mem_cons_of_mem _ hd'))]
    exact ListMap.get?_set_ne _ _ _ _
      (fun hEq => hne d (List.mem_cons_self _ _) hEq.symm)

theorem sessFold_mem (oks : List ColorData) (sess : Session)
    (h : Nat) (d : ColorData) (hd : d ∈ oks) (hhue : d.hue = h)
    (huniq : ∀ d' ∈ oks, d'.hue = h → d' = d) :
    ListMap.get? (oks.foldl (fun (s : Session) c => s.set c.hue c) sess) h = some d := by
  induction oks generalizing sess with
  | nil => cases hd
  | cons d₀ rest ih =>
    rw [List.foldl_cons]
    by_cases hrest : ∃ d' ∈ rest, d'.hue = h
    · obtain ⟨d', hd', hhue'⟩ := hrest
      have : d' = d := huniq d' (List.mem_cons_of_mem _ hd') hhue'
      subst this
      exact ih _ hd'
        (fun d'' hd'' hh => huniq d'' (List.mem_cons_of_mem _ hd'') hh)
    · have hnone : ∀ d' ∈ rest, d'.hue ≠ h := by
        intro d' hd' hh
        exact hrest ⟨d', hd', hh⟩
      rw [sessFold_not_mem rest _ h hnone]
      have hd₀ : d₀ = d := by
        rcases List.mem_cons.mp hd with hEq | h'
        · exact hEq.symm
        · exact absurd ⟨d, h', hhue⟩ hrest
      subst hd₀
      rw [hhue]
      exact ListMap.get?_set_self _ _ _

theorem sessFold_keys_nodup (oks : List ColorData) (sess : Session)
    (h : (ListMap.keys sess).Nodup) :
    (ListMap.keys (oks.foldl (fun (s : Session) c => s.set c.hue c) sess)).Nodup := by
  induction oks generalizing sess with
  | nil => exact h
  | cons d rest ih =>
    rw [List.foldl_cons]
    exact ih _ (ListMap.nodup_keys_set _ _ _ h)

theorem partition_sess_cases (s l : Nat) (cache : Cache)
    (hues : List Nat) :
    ∀ (acc : Session × List Nat) (h : Nat),
      ListMap.get? (hues.foldl (partStep s l cache) acc).1 h =
        ListMap.get? acc.1 h ∨
      ∃ v, ListMap.get? cache (cacheKey h s l) = some v ∧
        ListMap.get? (hues.foldl (partStep s l cache) acc).1 h = some v := by
  induction hues with
  | nil => intro acc h; exact Or.inl rfl
  | cons hd tl ih =>
    intro acc h
    rw [List.foldl_cons]
    rcases ih (partStep s l cache acc hd) h with hl | hr
    · rw [hl]
      unfold partStep
      cases hc : ListMap.get? cache (cacheKey hd s l) with
      | some v =>
        simp only
        by_cases hEq : h = hd
        · subst hEq
          refine Or.inr ⟨v, hc, ?_⟩
          exact ListMap.get?_set_self _ _ _
        · rw [ListMap.get?_set_ne _ _ _ _ hEq]
          exact Or.inl rfl
      | none => exact Or.inl rfl
    · exact Or.inr hr

theorem sessFold_cases (oks : List ColorData) (sess : Session) (h : Nat) :
    ListMap.get? (oks.foldl (fun (s : Session) c => s.set c.hue c) sess) h =
      ListMap.get? sess h ∨
    ∃ d ∈ oks, d.hue = h ∧
      ListMap.get? (oks.foldl (fun (s : Session) c => s.set c.hue c) sess) h =
        some d := by
  induction oks generalizing sess with
  | nil => exact Or.inl rfl
  | cons d₀ rest ih =>
    rw [List.foldl_cons]
    rcases ih (ListMap.set sess d₀.hue d₀) with hl | ⟨d, hd, hhue, hval⟩
    · rw [hl]
      by_cases hEq : d₀.hue = h
      · refine Or.inr ⟨d₀, List.mem_cons_self _ _, hEq, ?_⟩
        rw [← hEq]
        exact ListMap.get?_set_self _ _ _
      · rw [ListMap.get?_set_ne _ _ _ _ (fun hEq' => hEq hEq'.symm)]
        exact Or.inl rfl
    · exact Or.inr ⟨d, List.mem_cons_of_mem _ hd, hhue, hval⟩

/-! ## fetchBatch lemmas -/

theorem partitionHues_batch (s l : Nat) (c : Cache) (hues : List Nat)
    (sess : Session) :
    (partitionHues s l c hues sess).2 = hues.filter
      (fun h => (ListMap.get? c (cacheKey h s l)).isNone) := by
  unfold partitionHues
  rw [partition_batch]
  rfl

theorem partitionHues_not_mem (s l : Nat) (c : Cache) (hues : List Nat)
    (sess : Session) {h : Nat} (hmem : h ∉ hues) :
    ListMap.get? (partitionHues s l c hues sess).1 h =
      ListMap.get? sess h :=
  partition_sess_not_mem s l c hues hmem (sess, [])

theorem partitionHues_cached (s l : Nat) (c : Cache) (hues : List Nat)
    (sess : Session) {h : Nat} {v : ColorData}
    (hc : ListMap.get? c (cacheKey h s l) = some v) (hmem : h ∈ hues) :
    ListMap.get? (partitionHues s l c hues sess).1 h = some v :=
  partition_sess_cached s l c hues hc (sess, []) hmem

theorem partitionHues_cases (s l : Nat) (c : Cache) (hues : List Nat)
    (sess : Session) (h : Nat) :
    ListMap.get? (partitionHues s l c hues sess).1 h =
      ListMap.get? sess h ∨
    ∃ v, ListMap.get? c (cacheKey h s l) = some v ∧
      ListMap.get? (partitionHues s l c hues sess).1 h = some v :=
  partition_sess_cases s l c hues (sess, []) h

theorem partitionHues_keys_nodup (s l : Nat) (c : Cache)
    (hues : List Nat) (sess : Session)
    (hn : (ListMap.keys sess).Nodup) :
    (ListMap.keys (partitionHues s l c hues sess).1).Nodup :=
  partition_keys_nodup s l c hues (sess, []) hn

/-- Definitional unfolding of `fetchBatch` in projection form. -/
theorem fetchBatch_eq (api : Api) (s l : Nat) (hues : List Nat)
    (c : Cache) (sess : Session) :
    fetchBatch api s l hues c sess =
      if (partitionHues s l c hues sess).2.isEmpty then
        (c, (partitionHues s l c hues sess).1, [], none)
      else
        match (runChunks api s l
            (chunksOf20 (partitionHues s l c hues sess).2) c).2.2.2 with
        | some e =>
          ((runChunks api s l
              (chunksOf20 (partitionHues s l c hues sess).2) c).1,
           (partitionHues s l c hues sess).1,
           (runChunks api s l
              (chunksOf20 (partitionHues s l c hues sess).2) c).2.1,
           some e)
        | none =>
          ((runChunks api s l
              (chunksOf20 (partitionHues s l c hues sess).2) c).1,
           ((runChunks api s l
              (chunksOf20 (partitionHues s l c hues sess).2) c).2.2.1).foldl
             (fun s c => s.set c.hue c) (partitionHues s l c hues sess).1,
           (runChunks api s l
              (chunksOf20 (partitionHues s l c hues sess).2) c).2.1,
           none) := rfl

theorem fetchBatch_goodExt (api : Api) (s l : Nat) (hues : List Nat)
    (c : Cache) (sess : Session) :
    GoodExt api s l c (fetchBatch api s l hues c sess).1 := by
  rw [fetchBatch_eq]
  split
  · exact GoodExt.refl api s l c
  · split
    · exact runChunks_goodExt api s l _ c
    · exact runChunks_goodExt api s l _ c

theorem fetchBatch_all_cached (api : Api) (s l : Nat) (hues : List Nat)
    (c : Cache) (sess : Session)
    (hall : ∀ h ∈ hues, (ListMap.get? c (cacheKey h s l)).isSome) :
    fetchBatch api s l hues c sess =
      (c, (partitionHues s l c hues sess).1, [], none) := by
  rw [fetchBatch_eq]
  have hbatch : (partitionHues s l c hues sess).2 = [] := by
    rw [partitionHues_batch, List.filter_eq_nil_iff]
    intro a ha
    cases hget : ListMap.get? c (cacheKey a s l) with
    | none =>
      have := hall a ha
      rw [hget] at this
      cases this
    | some v => simp
  rw [hbatch]
  rfl

theorem fetchBatch_empty_eq (api : Api) (s l : Nat) (hues : List Nat)
    (c : Cache) (sess : Session)
    (hbe : (partitionHues s l c hues sess).2.isEmpty = true) :
    fetchBatch api s l hues c sess =
      (c, (partitionHues s l c hues sess).1, [], none) := by
  rw [fetchBatch_eq, if_pos hbe]

theorem fetchBatch_some_eq (api : Api) (s l : Nat) (hues : List Nat)
    (c : Cache) (sess : Session) (e : FetchError)
    (hbe : (partitionHues s l c hues sess).2.isEmpty = false)
    (herr : (runChunks api s l
        (chunksOf20 (partitionHues s l c hues sess).2) c).2.2.2 = some e) :
    fetchBatch api s l hues c sess =
      ((runChunks api s l
          (chunksOf20 (partitionHues s l c hues sess).2) c).1,
       (partitionHues s l c hues sess).1,
       (runChunks api s l
          (chunksOf20 (partitionHues s l c hues sess).2) c).2.1,
       some e) := by
  rw [fetchBatch_eq, if_neg (by rw [hbe]; exact Bool.false_ne_true), herr]

theorem fetchBatch_none_eq (api : Api) (s l : Nat) (hues : List Nat)
    (c : Cache) (sess : Session)
    (hbe : (partitionHues s l c hues sess).2.isEmpty = false)
    (herr : (runChunks api s l
        (chunksOf20 (partitionHues s l c hues sess).2) c).2.2.2 = none) :
    fetchBatch api s l hues c sess =
      ((runChunks api s l
          (chunksOf20 (partitionHues s l c hues sess).2) c).1,
       ((runChunks api s l
          (chunksOf20 (partitionHues s l c hues sess).2) c).2.2.1).foldl
         (fun s c => s.set c.hue c) (partitionHues s l c hues sess).1,
       (runChunks api s l
          (chunksOf20 (partitionHues s l c hues sess).2) c).2.1,
       none) := by
  rw [fetchBatch_eq, if_neg (by rw [hbe]; exact Bool.false_ne_true), herr]

/-- The hues of `batch` are exactly the uncached ones. -/
theorem batch_uncached (s l : Nat) (c : Cache) (hues : List Nat)
    (sess : Session) :
    ∀ hu ∈ (partitionHues s l c hues sess).2,
      ListMap.get? c (cacheKey hu s l) = none ∧ hu ∈ hues := by
  intro hu hhu
  rw [partitionHues_batch] at hhu
  obtain ⟨hmem, hnone⟩ := List.mem_filter.mp hhu
  exact ⟨Option.isNone_iff_eq_none.mp hnone, hmem⟩

/-- Every result fetched for an all-uncached batch carries its hue and
is the resolve value at that hue. -/
theorem batch_oks_hue (api : Api) (s l : Nat) {c : Cache}
    {batch : List Nat} {oks : List ColorData}
    (hbun : ∀ hu ∈ batch, ListMap.get? c (cacheKey hu s l) = none)
    (hres : resolveAll api s l c batch = some oks) :
    ∀ d ∈ oks, d.hue ∈ batch ∧ resolve api s l c d.hue = .ok d := by
  intro d hd
  obtain ⟨hu, hhu, hr⟩ := resolveAll_mem_of_mem hres d hd
  have hun := hbun hu hhu
  have hrl : remoteLookup api hu s l = .ok d := by
    unfold resolve at hr
    rw [hun] at hr
    exact hr
  have hhue := (remoteLookup_ok hrl).1
  rw [hhue]
  exact ⟨hhu, hr⟩

theorem fetchBatch_ok (api : Api) (s l : Nat) (hues : List Nat)
    (c : Cache) (sess : Session)
    (herr : (fetchBatch api s l hues c sess).2.2.2 = none) :
    ∀ h ∈ hues, ∃ d, resolve api s l c h = .ok d ∧
      ListMap.get? (fetchBatch api s l hues c sess).2.1 h = some d ∧
      ListMap.get? (fetchBatch api s l hues c sess).1 (cacheKey h s l) =
        some d := by
  intro h hmem
  cases hbe : (partitionHues s l c hues sess).2.isEmpty with
  | true =>
    rw [fetchBatch_empty_eq api s l hues c sess hbe]
    dsimp only
    have hbatch : (partitionHues s l c hues sess).2 = [] :=
      List.isEmpty_iff.mp hbe
    cases hget : ListMap.get? c (cacheKey h s l) with
    | none =>
      exfalso
      have hin : h ∈ (partitionHues s l c hues sess).2 := by
        rw [partitionHues_batch]
        exact List.mem_filter.mpr ⟨hmem, by rw [hget]; rfl⟩
      rw [hbatch] at hin
      cases hin
    | some v =>
      refine ⟨v, ?_, ?_, rfl⟩
      · unfold resolve; rw [hget]
      · exact partitionHues_cached s l c hues sess hget hmem
  | false =>
    cases herr2 : (runChunks api s l
        (chunksOf20 (partitionHues s l c hues sess).2) c).2.2.2 with
    | some e =>
      rw [fetchBatch_some_eq api s l hues c sess e hbe herr2] at herr
      cases herr
    | none =>
      rw [fetchBatch_none_eq api s l hues c sess hbe herr2]
      dsimp only
      have hresAll := runChunks_err_none api s l _ c herr2
      rw [chunksOf20_flatten] at hresAll
      have hbun : ∀ hu ∈ (partitionHues s l c hues sess).2,
          ListMap.get? c (cacheKey hu s l) = none :=
        fun hu hhu => (batch_uncached s l c hues sess hu hhu).1
      cases hget : ListMap.get? c (cacheKey h s l) with
      | some v =>
        refine ⟨v, by unfold resolve; rw [hget], ?_, ?_⟩
        · have hne : ∀ d ∈ (runChunks api s l
              (chunksOf20 (partitionHues s l c hues sess).2) c).2.2.1,
              d.hue ≠ h := by
            intro d hd hdh
            obtain ⟨hmem', _⟩ := batch_oks_hue api s l hbun hresAll d hd
            rw [hdh] at hmem'
            rw [hbun h hmem'] at hget
            cases hget
          exact (sessFold_not_mem _ _ _ hne).trans
            (partitionHues_cached s l c hues sess hget hmem)
        · exact (runChunks_goodExt api s l _ c).cacheLE _ _ hget
      | none =>
        have hmemb : h ∈ (partitionHues s l c hues sess).2 := by
          rw [partitionHues_batch]
          exact List.mem_filter.mpr ⟨hmem, by rw [hget]; rfl⟩
        obtain ⟨d, hres, hdoks⟩ := resolveAll_mem_ok hresAll h hmemb
        have hdhue : d.hue = h := by
          have hrl : remoteLookup api h s l = .ok d := by
            unfold resolve at hres
            rw [hget] at hres
            exact hres
          exact (remoteLookup_ok hrl).1
        refine ⟨d, hres, ?_, ?_⟩
        · refine sessFold_mem _ _ _ _ hdoks hdhue ?_
          intro d' hd' hdh'
          obtain ⟨_, hres'⟩ := batch_oks_hue api s l hbun hresAll d' hd'
          rw [hdh', hres] at hres'
          cases hres'
          rfl
        · apply runChunks_ok_cached api s l _ c h _ d hres herr2
          rw [chunksOf20_flatten]
          exact hmemb

theorem fetchBatch_sess_not_mem (api : Api) (s l : Nat) (hues : List Nat)
    (c : Cache) (sess : Session) {h : Nat} (hmem : h ∉ hues) :
    ListMap.get? (fetchBatch api s l hues c sess).2.1 h =
      ListMap.get? sess h := by
  cases hbe : (partitionHues s l c hues sess).2.isEmpty with
  | true =>
    rw [fetchBatch_empty_eq api s l hues c sess hbe]
    exact partitionHues_not_mem s l c hues sess hmem
  | false =>
    cases herr2 : (runChunks api s l
        (chunksOf20 (partitionHues s l c hues sess).2) c).2.2.2 with
    | some e =>
      rw [fetchBatch_some_eq api s l hues c sess e hbe herr2]
      exact partitionHues_not_mem s l c hues sess hmem
    | none =>
      rw [fetchBatch_none_eq api s l hues c sess hbe herr2]
      dsimp only
      have hresAll := runChunks_err_none api s l _ c herr2
      rw [chunksOf20_flatten] at hresAll
      have hbun : ∀ hu ∈ (partitionHues s l c hues sess).2,
          ListMap.get? c (cacheKey hu s l) = none :=
        fun hu hhu => (batch_uncached s l c hues sess hu hhu).1
      have hne : ∀ d ∈ (runChunks api s l
          (chunksOf20 (partitionHues s l c hues sess).2) c).2.2.1,
          d.hue ≠ h := by
        intro d hd hdh
        obtain ⟨hmem', _⟩ := batch_oks_hue api s l hbun hresAll d hd
        rw [hdh] at hmem'
        exact hmem (batch_uncached s l c hues sess h hmem').2
      exact (sessFold_not_mem _ _ _ hne).trans
        (partitionHues_not_mem s l c hues sess hmem)

theorem fetchBatch_err_some (api : Api) (s l : Nat) (hues : List Nat)
    (c : Cache) (sess : Session) (e : FetchError)
    (herr : (fetchBatch api s l hues c sess).2.2.2 = some e) :
    ∃ h ∈ hues, resolve api s l c h = .error e := by
  cases hbe : (partitionHues s l c hues sess).2.isEmpty with
  | true =>
    rw [fetchBatch_empty_eq api s l hues c sess hbe] at herr
    cases herr
  | false =>
    cases herr2 : (runChunks api s l
        (chunksOf20 (partitionHues s l c hues sess).2) c).2.2.2 with
    | none =>
      rw [fetchBatch_none_eq api s l hues c sess hbe herr2] at herr
      cases herr
    | some e₀ =>
      rw [fetchBatch_some_eq api s l hues c sess e₀ hbe herr2] at herr
      cases herr
      obtain ⟨h, hmem, hres⟩ := runChunks_err_some api s l _ c e herr2
      rw [chunksOf20_flatten] at hmem
      exact ⟨h, (batch_uncached s l c hues sess h hmem).2, hres⟩

theorem fetchBatch_trace_sublist (api : Api) (s l : Nat)
    (hues : List Nat) (c : Cache) (sess : Session) :
    (fetchBatch api s l hues c sess).2.2.1.Sublist
      (partitionHues s l c hues sess).2 := by
  cases hbe : (partitionHues s l c hues sess).2.isEmpty with
  | true =>
    rw [fetchBatch_empty_eq api s l hues c sess hbe]
    exact List.nil_sublist _
  | false =>
    cases herr2 : (runChunks api s l
        (chunksOf20 (partitionHues s l c hues sess).2) c).2.2.2 with
    | some e =>
      rw [fetchBatch_some_eq api s l hues c sess e hbe herr2]
      have := runChunks_trace_sublist api s l
        (chunksOf20 (partitionHues s l c hues sess).2) c
      rwa [chunksOf20_flatten] at this
    | none =>
      rw [fetchBatch_none_eq api s l hues c sess hbe herr2]
      have := runChunks_trace_sublist api s l
        (chunksOf20 (partitionHues s l c hues sess).2) c
      rwa [chunksOf20_flatten] at this

theorem fetchBatch_trace_uncached (api : Api) (s l : Nat)
    (hues : List Nat) (c : Cache) (sess : Session) :
    ∀ h ∈ (fetchBatch api s l hues c sess).2.2.1,
      ListMap.get? c (cacheKey h s l) = none ∧ h ∈ hues := by
  intro h hmem
  have := (fetchBatch_trace_sublist api s l hues c sess).mem hmem
  exact batch_uncached s l c hues sess h this

theorem fetchBatch_trace_ok_cached (api : Api) (s l : Nat)
    (hues : List Nat) (c : Cache) (sess : Session) :
    ∀ h ∈ (fetchBatch api s l hues c sess).2.2.1, ∀ d,
      remoteLookup api h s l = .ok d →
      ListMap.get? (fetchBatch api s l hues c sess).1 (cacheKey h s l) =
        some d := by
  intro h hmem d hr
  cases hbe : (partitionHues s l c hues sess).2.isEmpty with
  | true =>
    rw [fetchBatch_empty_eq api s l hues c sess hbe] at hmem
    cases hmem
  | false =>
    cases herr2 : (runChunks api s l
        (chunksOf20 (partitionHues s l c hues sess).2) c).2.2.2 with
    | some e =>
      rw [fetchBatch_some_eq api s l hues c sess e hbe herr2] at hmem ⊢
      exact runChunks_trace_ok_cached api s l _ c h hmem d hr
    | none =>
      rw [fetchBatch_none_eq api s l hues c sess hbe herr2] at hmem ⊢
      exact runChunks_trace_ok_cached api s l _ c h hmem d hr

theorem fetchBatch_trace_err (api : Api) (s l : Nat) (hues : List Nat)
    (c : Cache) (sess : Session) :
    ∀ h ∈ (fetchBatch api s l hues c sess).2.2.1, ∀ e,
      remoteLookup api h s l = .error e →
      ((fetchBatch api s l hues c sess).2.2.2).isSome := by
  intro h hmem e hr
  have huncached := (fetchBatch_trace_uncached api s l hues c sess h hmem).1
  have hres : resolve api s l c h = .error e := by
    unfold resolve
    rw [huncached]
    exact hr
  cases hbe : (partitionHues s l c hues sess).2.isEmpty with
  | true =>
    rw [fetchBatch_empty_eq api s l hues c sess hbe] at hmem
    cases hmem
  | false =>
    cases herr2 : (runChunks api s l
        (chunksOf20 (partitionHues s l c hues sess).2) c).2.2.2 with
    | some e₀ =>
      rw [fetchBatch_some_eq api s l hues c sess e₀ hbe herr2]
      rfl
    | none =>
      exfalso
      rw [fetchBatch_none_eq api s l hues c sess hbe herr2] at hmem
      dsimp only at hmem
      have hmem' := (runChunks_trace_sublist api s l
        (chunksOf20 (partitionHues s l c hues sess).2) c).mem hmem
      have := runChunks_errs_of_mem api s l
        (chunksOf20 (partitionHues s l c hues sess).2) c h hmem' e hres
      rw [herr2] at this
      cases this

theorem fetchBatch_sess_nodup (api : Api) (s l : Nat) (hues : List Nat)
    (c : Cache) (sess : Session)
    (hn : (ListMap.keys sess).Nodup) :
    (ListMap.keys (fetchBatch api s l hues c sess).2.1).Nodup := by
  cases hbe : (partitionHues s l c hues sess).2.isEmpty with
  | true =>
    rw [fetchBatch_empty_eq api s l hues c sess hbe]
    exact partitionHues_keys_nodup s l c hues sess hn
  | false =>
    cases herr2 : (runChunks api s l
        (chunksOf20 (partitionHues s l c hues sess).2) c).2.2.2 with
    | some e =>
      rw [fetchBatch_some_eq api s l hues c sess e hbe herr2]
      exact partitionHues_keys_nodup s l c hues sess hn
    | none =>
      rw [fetchBatch_none_eq api s l hues c sess hbe herr2]
      exact sessFold_keys_nodup _ _
        (partitionHues_keys_nodup s l c hues sess hn)

theorem fetchBatch_sess_wf (api : Api) (s l : Nat) (hues : List Nat)
    (c : Cache) (sess : Session) (hwfc : WFCache c)
    (hwfs : ∀ h d, ListMap.get? sess h = some d → d.hue = h) :
    ∀ h d, ListMap.get? (fetchBatch api s l hues c sess).2.1 h = some d →
      d.hue = h := by
  have hpart : ∀ h d,
      ListMap.get? (partitionHues s l c hues sess).1 h = some d →
      d.hue = h := by
    intro h d hget
    rcases partitionHues_cases s l c hues sess h with hl | ⟨v, hv, hval⟩
    · rw [hl] at hget
      exact hwfs h d hget
    · rw [hval] at hget
      cases hget
      have := hwfc _ _ hv
      unfold cacheKey at this
      exact (congrArg Prod.fst this).symm
  intro h d hget
  cases hbe : (partitionHues s l c hues sess).2.isEmpty with
  | true =>
    rw [fetchBatch_empty_eq api s l hues c sess hbe] at hget
    exact hpart h d hget
  | false =>
    cases herr2 : (runChunks api s l
        (chunksOf20 (partitionHues s l c hues sess).2) c).2.2.2 with
    | some e =>
      rw [fetchBatch_some_eq api s l hues c sess e hbe herr2] at hget
      exact hpart h d hget
    | none =>
      rw [fetchBatch_none_eq api s l hues c sess hbe herr2] at hget
      dsimp only at hget
      rcases sessFold_cases ((runChunks api s l
          (chunksOf20 (partitionHues s l c hues sess).2) c).2.2.1)
          (partitionHues s l c hues sess).1 h with hl | ⟨d', _, hhue, hval⟩
      · refine hpart h d ?_
        rw [← hl]
        exact hget
      · have hgd : some d' = some d := hval.symm.trans hget
        cases hgd
        exact hhue

theorem fetchBatch_sess_inv (api : Api) (s l : Nat) (hues : List Nat)
    (c : Cache) (sess : Session)
    (hses : ∀ h d, ListMap.get? sess h = some d →
      resolve api s l c h = .ok d) :
    ∀ h d, ListMap.get? (fetchBatch api s l hues c sess).2.1 h = some d →
      resolve api s l c h = .ok d := by
  have hpart : ∀ h d,
      ListMap.get? (partitionHues s l c hues sess).1 h = some d →
      resolve api s l c h = .ok d := by
    intro h d hget
    rcases partitionHues_cases s l c hues sess h with hl | ⟨v, hv, hval⟩
    · rw [hl] at hget
      exact hses h d hget
    · rw [hval] at hget
      cases hget
      unfold resolve
      rw [hv]
  intro h d hget
  cases hbe : (partitionHues s l c hues sess).2.isEmpty with
  | true =>
    rw [fetchBatch_empty_eq api s l hues c sess hbe] at hget
    exact hpart h d hget
  | false =>
    cases herr2 : (runChunks api s l
        (chunksOf20 (partitionHues s l c hues sess).2) c).2.2.2 with
    | some e =>
      rw [fetchBatch_some_eq api s l hues c sess e hbe herr2] at hget
      exact hpart h d hget
    | none =>
      rw [fetchBatch_none_eq api s l hues c sess hbe herr2] at hget
      dsimp only at hget
      have hresAll := runChunks_err_none api s l _ c herr2
      rw [chunksOf20_flatten] at hresAll
      have hbun : ∀ hu ∈ (partitionHues s l c hues sess).2,
          ListMap.get? c (cacheKey hu s l) = none :=
        fun hu hhu => (batch_uncached s l c hues sess hu hhu).1
      rcases sessFold_cases ((runChunks api s l
          (chunksOf20 (partitionHues s l c hues sess).2) c).2.2.1)
          (partitionHues s l c hues sess).1 h with hl | ⟨d', hd', hhue, hval⟩
      · refine hpart h d ?_
        rw [← hl]
        exact hget
      · have hgd : some d' = some d := hval.symm.trans hget
        cases hgd
        have hres := (batch_oks_hue api s l hbun hresAll d hd').2
        rw [hhue] at hres
        exact hres

theorem fetchBatch_sess_isSome (api : Api) (s l : Nat) (hues : List Nat)
    (c : Cache) (sess : Session) (h : Nat)
    (hs : (ListMap.get? sess h).isSome) :
    (ListMap.get? (fetchBatch api s l hues c sess).2.1 h).isSome := by
  by_cases hmem : h ∈ hues
  · cases herr : (fetchBatch api s l hues c sess).2.2.2 with
    | none =>
      obtain ⟨d, _, hval, _⟩ :=
        fetchBatch_ok api s l hues c sess herr h hmem
      rw [hval]
      rfl
    | some e =>
      -- the session equals the partition result in the error case
      cases hbe : (partitionHues s l c hues sess).2.isEmpty with
      | true =>
        rw [fetchBatch_empty_eq api s l hues c sess hbe]
        rcases partitionHues_cases s l c hues sess h with hl | ⟨v, _, hval⟩
        · rw [hl]; exact hs
        · rw [hval]; rfl
      | false =>
        cases herr2 : (runChunks api s l
            (chunksOf20 (partitionHues s l c hues sess).2) c).2.2.2 with
        | none =>
          rw [fetchBatch_none_eq api s l hues c sess hbe herr2]
          dsimp only
          rcases sessFold_cases ((runChunks api s l
              (chunksOf20 (partitionHues s l c hues sess).2) c).2.2.1)
              (partitionHues s l c hues sess).1 h with hl | ⟨d', _, _, hval⟩
          · rw [hl]
            rcases partitionHues_cases s l c hues sess h with hl' | ⟨v, _, hval'⟩
            · rw [hl']; exact hs
            · rw [hval']; rfl
          · rw [hval]; rfl
        | some e₀ =>
          rw [fetchBatch_some_eq api s l hues c sess e₀ hbe herr2]
          rcases partitionHues_cases s l c hues sess h with hl | ⟨v, _, hval⟩
          · rw [hl]; exact hs
          · rw [hval]; rfl
  · rw [fetchBatch_sess_not_mem api s l hues c sess hmem]
    exact hs

/-- A hue already cached keeps its cached value in the session produced
by `fetchBatch`, whatever the batch outcome. -/
theorem fetchBatch_sess_cached (api : Api) (s l : Nat) (hues : List Nat)
    (c : Cache) (sess : Session) {h : Nat} {d : ColorData}
    (hc : ListMap.get? c (cacheKey h s l) = some d) (hmem : h ∈ hues) :
    ListMap.get? (fetchBatch api s l hues c sess).2.1 h = some d := by
  cases hbe : (partitionHues s l c hues sess).2.isEmpty with
  | true =>
    rw [fetchBatch_empty_eq api s l hues c sess hbe]
    exact partitionHues_cached s l c hues sess hc hmem
  | false =>
    cases herr2 : (runChunks api s l
        (chunksOf20 (partitionHues s l c hues sess).2) c).2.2.2 with
    | some e =>
      rw [fetchBatch_some_eq api s l hues c sess e hbe herr2]
      exact partitionHues_cached s l c hues sess hc hmem
    | none =>
      rw [fetchBatch_none_eq api s l hues c sess hbe herr2]
      dsimp only
      have hresAll := runChunks_err_none api s l _ c herr2
      rw [chunksOf20_flatten] at hresAll
      have hbun : ∀ hu ∈ (partitionHues s l c hues sess).2,
          ListMap.get? c (cacheKey hu s l) = none :=
        fun hu hhu => (batch_uncached s l c hues sess hu hhu).1
      have hne : ∀ d' ∈ (runChunks api s l
          (chunksOf20 (partitionHues s l c hues sess).2) c).2.2.1,
          d'.hue ≠ h := by
        intro d' hd' hdh
        obtain ⟨hmem', _⟩ := batch_oks_hue api s l hbun hresAll d' hd'
        rw [hdh] at hmem'
        rw [hbun h hmem'] at hc
        cases hc
      exact (sessFold_not_mem _ _ _ hne).trans
        (partitionHues_cached s l c hues sess hc hmem)

/-! ## refineRanges lemmas -/

theorem refineRanges_goodExt (api : Api) (s l : Nat)
    (ranges : List (Nat × Nat)) (c : Cache) (sess : Session) :
    GoodExt api s l c (refineRanges api s l ranges c sess).1 := by
  induction ranges generalizing c sess with
  | nil => exact GoodExt.refl api s l c
  | cons range rest ih =>
    unfold refineRanges
    by_cases hfe : (interiorHues range).isEmpty
    · rw [if_pos hfe]
      exact ih c sess
    · rw [if_neg hfe]
      have hfb := fetchBatch_goodExt api s l (interiorHues range) c sess
      cases herr : (fetchBatch api s l (interiorHues range) c sess).2.2.2 with
      | some e => simp only [herr]; exact hfb
      | none => simp only [herr]; exact hfb.trans (ih _ _)

theorem refineRanges_sess_not_mem (api : Api) (s l : Nat)
    (ranges : List (Nat × Nat)) (c : Cache) (sess : Session) (h : Nat)
    (hmem : ∀ r ∈ ranges, h ∉ interiorHues r) :
    ListMap.get? (refineRanges api s l ranges c sess).2.1 h =
      ListMap.get? sess h := by
  induction ranges generalizing c sess with
  | nil => rfl
  | cons range rest ih =>
    have hhd : h ∉ interiorHues range := hmem range (List.mem_cons_self _ _)
    have hrest : ∀ r ∈ rest, h ∉ interiorHues r :=
      fun r hr => hmem r (List.mem_cons_of_mem _ hr)
    unfold refineRanges
    by_cases hfe : (interiorHues range).isEmpty
    · rw [if_pos hfe]
      exact ih c sess hrest
    · rw [if_neg hfe]
      cases herr : (fetchBatch api s l (interiorHues range) c sess).2.2.2 with
      | some e =>
        simp only [herr]
        exact fetchBatch_sess_not_mem api s l _ c sess hhd
      | none =>
        simp only [herr]
        exact (ih _ _ hrest).trans
          (fetchBatch_sess_not_mem api s l _ c sess hhd)

theorem refineRanges_sess_isSome (api : Api) (s l : Nat)
    (ranges : List (Nat × Nat)) (c : Cache) (sess : Session) (h : Nat)
    (hs : (ListMap.get? sess h).isSome) :
    (ListMap.get? (refineRanges api s l ranges c sess).2.1 h).isSome := by
  induction ranges generalizing c sess with
  | nil => exact hs
  | cons range rest ih =>
    unfold refineRanges
    by_cases hfe : (interiorHues range).isEmpty
    · rw [if_pos hfe]
      exact ih c sess hs
    · rw [if_neg hfe]
      cases herr : (fetchBatch api s l (interiorHues range) c sess).2.2.2 with
      | some e =>
        simp only [herr]
        exact fetchBatch_sess_isSome api s l _ c sess h hs
      | none =>
        simp only [herr]
        exact ih _ _ (fetchBatch_sess_isSome api s l _ c sess h hs)

/-- Entries present in both the session and at their key in the cache
survive the whole refinement untouched. -/
theorem refineRanges_pres (api : Api) (s l : Nat)
    (ranges : List (Nat × Nat)) (c : Cache) (sess : Session) (h : Nat)
    (d : ColorData) (hsess : ListMap.get? sess h = some d)
    (hcache : ListMap.get? c (cacheKey h s l) = some d) :
    ListMap.get? (refineRanges api s l ranges c sess).2.1 h = some d ∧
    ListMap.get? (refineRanges api s l ranges c sess).1 (cacheKey h s l) =
      some d := by
  induction ranges generalizing c sess with
  | nil => exact ⟨hsess, hcache⟩
  | cons range rest ih =>
    unfold refineRanges
    by_cases hfe : (interiorHues range).isEmpty
    · rw [if_pos hfe]
      exact ih c sess hsess hcache
    · rw [if_neg hfe]
      have hcache' : ListMap.get?
          (fetchBatch api s l (interiorHues range) c sess).1
          (cacheKey h s l) = some d :=
        (fetchBatch_goodExt api s l _ c sess).cacheLE _ _ hcache
      cases herr : (fetchBatch api s l (interiorHues range) c sess).2.2.2 with
      | some e =>
        simp only [herr]
        refine ⟨?_, hcache'⟩
        by_cases hmem : h ∈ interiorHues range
        · exact fetchBatch_sess_cached api s l _ c sess hcache hmem
        · rw [fetchBatch_sess_not_mem api s l _ c sess hmem]
          exact hsess
      | none =>
        simp only [herr]
        by_cases hmem : h ∈ interiorHues range
        · obtain ⟨d', hres', hval', hcval'⟩ :=
            fetchBatch_ok api s l _ c sess herr h hmem
          have : d' = d := by
            unfold resolve at hres'
            rw [hcache] at hres'
            cases hres'
            rfl
          subst this
          exact ih _ _ hval' hcval'
        · refine ih _ _ ?_ hcache'
          rw [fetchBatch_sess_not_mem api s l _ c sess hmem]
          exact hsess

/-- Definitional unfolding of `refineRanges` on a cons cell. -/
theorem refineRanges_cons (api : Api) (s l : Nat) (range : Nat × Nat)
    (rest : List (Nat × Nat)) (c : Cache) (sess : Session) :
    refineRanges api s l (range :: rest) c sess =
      if (interiorHues range).isEmpty = true then
        refineRanges api s l rest c sess
      else
        match (fetchBatch api s l (interiorHues range) c sess).2.2.2 with
        | some e =>
          ((fetchBatch api s l (interiorHues range) c sess).1,
           (fetchBatch api s l (interiorHues range) c sess).2.1,
           (fetchBatch api s l (interiorHues range) c sess).2.2.1,
           some e)
        | none =>
          ((refineRanges api s l rest
              (fetchBatch api s l (interiorHues range) c sess).1
              (fetchBatch api s l (interiorHues range) c sess).2.1).1,
           (refineRanges api s l rest
              (fetchBatch api s l (interiorHues range) c sess).1
              (fetchBatch api s l (interiorHues range) c sess).2.1).2.1,
           (fetchBatch api s l (interiorHues range) c sess).2.2.1 ++
             (refineRanges api s l rest
                (fetchBatch api s l (interiorHues range) c sess).1
                (fetchBatch api s l (interiorHues range) c sess).2.1).2.2.1,
           (refineRanges api s l rest
              (fetchBatch api s l (interiorHues range) c sess).1
              (fetchBatch api s l (interiorHues range) c sess).2.1).2.2.2) :=
  rfl

/-- `refineRanges` skips a range with an empty interior. -/
theorem refineRanges_cons_empty (api : Api) (s l : Nat)
    (range : Nat × Nat) (rest : List (Nat × Nat)) (c : Cache)
    (sess : Session) (hfe : (interiorHues range).isEmpty = true) :
    refineRanges api s l (range :: rest) c sess =
      refineRanges api s l rest c sess := by
  rw [refineRanges_cons, if_pos hfe]

/-- `refineRanges` stops when the range's batch rejects. -/
theorem refineRanges_cons_some (api : Api) (s l : Nat)
    (range : Nat × Nat) (rest : List (Nat × Nat)) (c : Cache)
    (sess : Session) (e : FetchError)
    (hfe : (interiorHues range).isEmpty = false)
    (herr : (fetchBatch api s l (interiorHues range) c sess).2.2.2 =
      some e) :
    refineRanges api s l (range :: rest) c sess =
      ((fetchBatch api s l (interiorHues range) c sess).1,
       (fetchBatch api s l (interiorHues range) c sess).2.1,
       (fetchBatch api s l (interiorHues range) c sess).2.2.1,
       some e) := by
  rw [refineRanges_cons, if_neg (by rw [hfe]; exact Bool.false_ne_true),
    herr]

/-- `refineRanges` recurses when the range's batch succeeds. -/
theorem refineRanges_cons_none (api : Api) (s l : Nat)
    (range : Nat × Nat) (rest : List (Nat × Nat)) (c : Cache)
    (sess : Session) (hfe : (interiorHues range).isEmpty = false)
    (herr : (fetchBatch api s l (interiorHues range) c sess).2.2.2 =
      none) :
    refineRanges api s l (range :: rest) c sess =
      ((refineRanges api s l rest
          (fetchBatch api s l (interiorHues range) c sess).1
          (fetchBatch api s l (interiorHues range) c sess).2.1).1,
       (refineRanges api s l rest
          (fetchBatch api s l (interiorHues range) c sess).1
          (fetchBatch api s l (interiorHues range) c sess).2.1).2.1,
       (fetchBatch api s l (interiorHues range) c sess).2.2.1 ++
         (refineRanges api s l rest
            (fetchBatch api s l (interiorHues range) c sess).1
            (fetchBatch api s l (interiorHues range) c sess).2.1).2.2.1,
       (refineRanges api s l rest
          (fetchBatch api s l (interiorHues range) c sess).1
          (fetchBatch api s l (interiorHues range) c sess).2.1).2.2.2) := by
  rw [refineRanges_cons, if_neg (by rw [hfe]; exact Bool.false_ne_true),
    herr]

theorem refineRanges_ok (api : Api) (s l : Nat)
    (ranges : List (Nat × Nat)) (c : Cache) (sess : Session)
    (herr : (refineRanges api s l ranges c sess).2.2.2 = none) :
    ∀ r ∈ ranges, ∀ h ∈ interiorHues r, ∃ d,
      resolve api s l c h = .ok d ∧
      ListMap.get? (refineRanges api s l ranges c sess).2.1 h = some d ∧
      ListMap.get? (refineRanges api s l ranges c sess).1 (cacheKey h s l) =
        some d := by
  induction ranges generalizing c sess with
  | nil => intro r hr; cases hr
  | cons range rest ih =>
    intro r hr h hmem
    cases hfe : (interiorHues range).isEmpty with
    | true =>
      rw [refineRanges_cons_empty api s l range rest c sess hfe] at herr ⊢
      rcases List.mem_cons.mp hr with rfl | hr'
      · rw [List.isEmpty_iff.mp hfe] at hmem
        cases hmem
      · exact ih c sess herr r hr' h hmem
    | false =>
      cases herr2 : (fetchBatch api s l (interiorHues range) c sess).2.2.2 with
      | some e =>
        rw [refineRanges_cons_some api s l range rest c sess e hfe herr2]
          at herr
        cases herr
      | none =>
        rw [refineRanges_cons_none api s l range rest c sess hfe herr2]
          at herr ⊢
        dsimp only at herr ⊢
        have hext := fetchBatch_goodExt api s l (interiorHues range) c sess
        rcases List.mem_cons.mp hr with rfl | hr'
        · obtain ⟨d, hres, hval, hcval⟩ :=
            fetchBatch_ok api s l _ c sess herr2 h hmem
          obtain ⟨hval', hcval'⟩ :=
            refineRanges_pres api s l rest _ _ h d hval hcval
          exact ⟨d, hres, hval', hcval'⟩
        · obtain ⟨d, hres, hval, hcval⟩ := ih _ _ herr r hr' h hmem
          refine ⟨d, ?_, hval, hcval⟩
          rw [← hext.resolve_eq]
          exact hres

theorem refineRanges_err_some (api : Api) (s l : Nat)
    (ranges : List (Nat × Nat)) (c : Cache) (sess : Session)
    (e : FetchError)
    (herr : (refineRanges api s l ranges c sess).2.2.2 = some e) :
    ∃ r ∈ ranges, ∃ h ∈ interiorHues r,
      resolve api s l c h = .error e := by
  induction ranges generalizing c sess with
  | nil => cases herr
  | cons range rest ih =>
    cases hfe : (interiorHues range).isEmpty with
    | true =>
      rw [refineRanges_cons_empty api s l range rest c sess hfe] at herr
      obtain ⟨r, hr, h, hmem, hres⟩ := ih c sess herr
      exact ⟨r, List.mem_cons_of_mem _ hr, h, hmem, hres⟩
    | false =>
      cases herr2 : (fetchBatch api s l (interiorHues range) c sess).2.2.2 with
      | some e₀ =>
        rw [refineRanges_cons_some api s l range rest c sess e₀ hfe herr2]
          at herr
        cases herr
        obtain ⟨h, hmem, hres⟩ :=
          fetchBatch_err_some api s l _ c sess e herr2
        exact ⟨range, List.mem_cons_self _ _, h, hmem, hres⟩
      | none =>
        rw [refineRanges_cons_none api s l range rest c sess hfe herr2]
          at herr
        dsimp only at herr
        have hext := fetchBatch_goodExt api s l (interiorHues range) c sess
        obtain ⟨r, hr, h, hmem, hres⟩ := ih _ _ herr
        refine ⟨r, List.mem_cons_of_mem _ hr, h, hmem, ?_⟩
        rw [← hext.resolve_eq]
        exact hres

theorem refineRanges_trace_uncached (api : Api) (s l : Nat)
    (ranges : List (Nat × Nat)) (c : Cache) (sess : Session) :
    ∀ h ∈ (refineRanges api s l ranges c sess).2.2.1,
      ListMap.get? c (cacheKey h s l) = none ∧
      ∃ r ∈ ranges, h ∈ interiorHues r := by
  induction ranges generalizing c sess with
  | nil => intro h hmem; cases hmem
  | cons range rest ih =>
    intro h hmem
    cases hfe : (interiorHues range).isEmpty with
    | true =>
      rw [refineRanges_cons_empty api s l range rest c sess hfe] at hmem
      obtain ⟨hun, r, hr, hint⟩ := ih c sess h hmem
      exact ⟨hun, r, List.mem_cons_of_mem _ hr, hint⟩
    | false =>
      have hext := fetchBatch_goodExt api s l (interiorHues range) c sess
      cases herr2 : (fetchBatch api s l (interiorHues range) c sess).2.2.2 with
      | some e =>
        rw [refineRanges_cons_some api s l range rest c sess e hfe herr2]
          at hmem
        dsimp only at hmem
        obtain ⟨hun, hint⟩ :=
          fetchBatch_trace_uncached api s l _ c sess h hmem
        exact ⟨hun, range, List.mem_cons_self _ _, hint⟩
      | none =>
        rw [refineRanges_cons_none api s l range rest c sess hfe herr2]
          at hmem
        dsimp only at hmem
        rcases List.mem_append.mp hmem with hmem' | hmem'
        · obtain ⟨hun, hint⟩ :=
            fetchBatch_trace_uncached api s l _ c sess h hmem'
          exact ⟨hun, range, List.mem_cons_self _ _, hint⟩
        · obtain ⟨hun, r, hr, hint⟩ := ih _ _ h hmem'
          exact ⟨cacheLE_none hext.cacheLE hun, r,
            List.mem_cons_of_mem _ hr, hint⟩

theorem refineRanges_trace_ok_cached (api : Api) (s l : Nat)
    (ranges : List (Nat × Nat)) (c : Cache) (sess : Session) :
    ∀ h ∈ (refineRanges api s l ranges c sess).2.2.1, ∀ d,
      remoteLookup api h s l = .ok d →
      ListMap.get? (refineRanges api s l ranges c sess).1 (cacheKey h s l) =
        some d := by
  induction ranges generalizing c sess with
  | nil => intro h hmem; cases hmem
  | cons range rest ih =>
    intro h hmem d hr
    cases hfe : (interiorHues range).isEmpty with
    | true =>
      rw [refineRanges_cons_empty api s l range rest c sess hfe] at hmem ⊢
      exact ih c sess h hmem d hr
    | false =>
      cases herr2 : (fetchBatch api s l (interiorHues range) c sess).2.2.2 with
      | some e =>
        rw [refineRanges_cons_some api s l range rest c sess e hfe herr2]
          at hmem ⊢
        dsimp only at hmem ⊢
        exact fetchBatch_trace_ok_cached api s l _ c sess h hmem d hr
      | none =>
        rw [refineRanges_cons_none api s l range rest c sess hfe herr2]
          at hmem ⊢
        dsimp only at hmem ⊢
        rcases List.mem_append.mp hmem with hmem' | hmem'
        · have hcached :=
            fetchBatch_trace_ok_cached api s l _ c sess h hmem' d hr
          exact (refineRanges_goodExt api s l rest _ _).cacheLE _ _ hcached
        · exact ih _ _ h hmem' d hr

theorem refineRanges_trace_err (api : Api) (s l : Nat)
    (ranges : List (Nat × Nat)) (c : Cache) (sess : Session) :
    ∀ h ∈ (refineRanges api s l ranges c sess).2.2.1, ∀ e,
      remoteLookup api h s l = .error e →
      ((refineRanges api s l ranges c sess).2.2.2).isSome := by
  induction ranges generalizing c sess with
  | nil => intro h hmem; cases hmem
  | cons range rest ih =>
    intro h hmem e hr
    cases hfe : (interiorHues range).isEmpty with
    | true =>
      rw [refineRanges_cons_empty api s l range rest c sess hfe] at hmem ⊢
      exact ih c sess h hmem e hr
    | false =>
      cases herr2 : (fetchBatch api s l (interiorHues range) c sess).2.2.2 with
      | some e₀ =>
        rw [refineRanges_cons_some api s l range rest c sess e₀ hfe herr2]
        rfl
      | none =>
        rw [refineRanges_cons_none api s l range rest c sess hfe herr2]
          at hmem ⊢
        dsimp only at hmem ⊢
        rcases List.mem_append.mp hmem with hmem' | hmem'
        · exfalso
          have := fetchBatch_trace_err api s l _ c sess h hmem' e hr
          rw [herr2] at this
          cases this
        · exact ih _ _ h hmem' e hr

theorem refineRanges_trace_nodup (api : Api) (s l : Nat)
    (ranges : List (Nat × Nat)) (c : Cache) (sess : Session)
    (hnodup : ∀ r ∈ ranges, (interiorHues r).Nodup) :
    (refineRanges api s l ranges c sess).2.2.1.Nodup := by
  induction ranges generalizing c sess with
  | nil => exact List.nodup_nil
  | cons range rest ih =>
    cases hfe : (interiorHues range).isEmpty with
    | true =>
      rw [refineRanges_cons_empty api s l range rest c sess hfe]
      exact ih c sess (fun r hr => hnodup r (List.mem_cons_of_mem _ hr))
    | false =>
      have hfbnodup :
          (fetchBatch api s l (interiorHues range) c sess).2.2.1.Nodup := by
        refine (fetchBatch_trace_sublist api s l _ c sess).nodup ?_
        rw [partitionHues_batch]
        exact (List.filter_sublist _).nodup
          (hnodup range (List.mem_cons_self _ _))
      cases herr2 : (fetchBatch api s l (interiorHues range) c sess).2.2.2 with
      | some e =>
        rw [refineRanges_cons_some api s l range rest c sess e hfe herr2]
        exact hfbnodup
      | none =>
        rw [refineRanges_cons_none api s l range rest c sess hfe herr2]
        dsimp only
        rw [List.nodup_append]
        refine ⟨hfbnodup, ih _ _
          (fun r hr => hnodup r (List.mem_cons_of_mem _ hr)), ?_⟩
        intro h hmem₁ hmem₂
        have hin : h ∈ interiorHues range :=
          (fetchBatch_trace_uncached api s l _ c sess h hmem₁).2
        obtain ⟨d, _, _, hcval⟩ :=
          fetchBatch_ok api s l _ c sess herr2 h hin
        have hun := (refineRanges_trace_uncached api s l rest _ _ h hmem₂).1
        rw [hcval] at hun
        cases hun

theorem refineRanges_sess_nodup (api : Api) (s l : Nat)
    (ranges : List (Nat × Nat)) (c : Cache) (sess : Session)
    (hn : (ListMap.keys sess).Nodup) :
    (ListMap.keys (refineRanges api s l ranges c sess).2.1).Nodup := by
  induction ranges generalizing c sess with
  | nil => exact hn
  | cons range rest ih =>
    cases hfe : (interiorHues range).isEmpty with
    | true =>
      rw [refineRanges_cons_empty api s l range rest c sess hfe]
      exact ih c sess hn
    | false =>
      cases herr2 : (fetchBatch api s l (interiorHues range) c sess).2.2.2 with
      | some e =>
        rw [refineRanges_cons_some api s l range rest c sess e hfe herr2]
        exact fetchBatch_sess_nodup api s l _ c sess hn
      | none =>
        rw [refineRanges_cons_none api s l range rest c sess hfe herr2]
        dsimp only
        exact ih _ _ (fetchBatch_sess_nodup api s l _ c sess hn)

theorem refineRanges_sess_wf (api : Api) (s l : Nat)
    (ranges : List (Nat × Nat)) (c : Cache) (sess : Session)
    (hwfc : WFCache c)
    (hwfs : ∀ h d, ListMap.get? sess h = some d → d.hue = h) :
    ∀ h d, ListMap.get? (refineRanges api s l ranges c sess).2.1 h =
      some d → d.hue = h := by
  induction ranges generalizing c sess with
  | nil => exact hwfs
  | cons range rest ih =>
    cases hfe : (interiorHues range).isEmpty with
    | true =>
      rw [refineRanges_cons_empty api s l range rest c sess hfe]
      exact ih c sess hwfc hwfs
    | false =>
      have hwfc' : WFCache (fetchBatch api s l (interiorHues range) c sess).1 :=
        hwfc.of_goodExt (fetchBatch_goodExt api s l _ c sess)
      have hwfs' := fetchBatch_sess_wf api s l (interiorHues range) c sess
        hwfc hwfs
      cases herr2 : (fetchBatch api s l (interiorHues range) c sess).2.2.2 with
      | some e =>
        rw [refineRanges_cons_some api s l range rest c sess e hfe herr2]
        exact hwfs'
      | none =>
        rw [refineRanges_cons_none api s l range rest c sess hfe herr2]
        dsimp only
        exact ih _ _ hwfc' hwfs'

theorem refineRanges_sess_inv (api : Api) (s l : Nat)
    (ranges : List (Nat × Nat)) (c : Cache) (sess : Session)
    (hses : ∀ h d, ListMap.get? sess h = some d →
      resolve api s l c h = .ok d) :
    ∀ h d, ListMap.get? (refineRanges api s l ranges c sess).2.1 h =
      some d → resolve api s l c h = .ok d := by
  induction ranges generalizing c sess with
  | nil => exact hses
  | cons range rest ih =>
    cases hfe : (interiorHues range).isEmpty with
    | true =>
      rw [refineRanges_cons_empty api s l range rest c sess hfe]
      exact ih c sess hses
    | false =>
      have hext := fetchBatch_goodExt api s l (interiorHues range) c sess
      have hses' := fetchBatch_sess_inv api s l (interiorHues range) c sess
        hses
      have hses'' : ∀ h d,
          ListMap.get? (fetchBatch api s l (interiorHues range) c sess).2.1
            h = some d →
          resolve api s l (fetchBatch api s l (interiorHues range) c sess).1
            h = .ok d := by
        intro h d hget
        rw [hext.resolve_eq]
        exact hses' h d hget
      cases herr2 : (fetchBatch api s l (interiorHues range) c sess).2.2.2 with
      | some e =>
        rw [refineRanges_cons_some api s l range rest c sess e hfe herr2]
        exact hses'
      | none =>
        rw [refineRanges_cons_none api s l range rest c sess hfe herr2]
        dsimp only
        intro h d hget
        rw [← hext.resolve_eq]
        exact ih _ _ hses'' h d hget

theorem refineRanges_all_cached (api : Api) (s l : Nat)
    (ranges : List (Nat × Nat)) (c : Cache) (sess : Session)
    (hc : ∀ r ∈ ranges, ∀ h ∈ interiorHues r,
      (ListMap.get? c (cacheKey h s l)).isSome) :
    (refineRanges api s l ranges c sess).1 = c ∧
    (refineRanges api s l ranges c sess).2.2.1 = [] ∧
    (refineRanges api s l ranges c sess).2.2.2 = none := by
  induction ranges generalizing sess with
  | nil => exact ⟨rfl, rfl, rfl⟩
  | cons range rest ih =>
    cases hfe : (interiorHues range).isEmpty with
    | true =>
      rw [refineRanges_cons_empty api s l range rest c sess hfe]
      exact ih sess (fun r hr => hc r (List.mem_cons_of_mem _ hr))
    | false =>
      have hfb := fetchBatch_all_cached api s l (interiorHues range) c sess
        (hc range (List.mem_cons_self _ _))
      have herr2 : (fetchBatch api s l (interiorHues range) c sess).2.2.2 =
          none := by rw [hfb]
      rw [refineRanges_cons_none api s l range rest c sess hfe herr2]
      dsimp only
      rw [hfb]
      dsimp only
      obtain ⟨h1, h2, h3⟩ :=
        ih (partitionHues s l c (interiorHues range) sess).1
          (fun r hr => hc r (List.mem_cons_of_mem _ hr))
      exact ⟨h1, by rw [h2]; simp, h3⟩

/-! ## fetchDistinctColors lemmas -/

/-- Definitional unfolding of `fetchDistinctColors` in projection
form. -/
theorem fetchDistinctColors_eq (api : Api) (s l : Nat) (c : Cache) :
    fetchDistinctColors api s l c =
      match (fetchBatch api s l coarseHues c []).2.2.2 with
      | some e =>
        { result := .error e,
          cache := (fetchBatch api s l coarseHues c []).1,
          session := (fetchBatch api s l coarseHues c []).2.1,
          trace := (fetchBatch api s l coarseHues c []).2.2.1 }
      | none =>
        match (refineRanges api s l
            (boundaryRanges coarseHues (fetchBatch api s l coarseHues c []).2.1)
            (fetchBatch api s l coarseHues c []).1
            (fetchBatch api s l coarseHues c []).2.1).2.2.2 with
        | some e =>
          { result := .error e,
            cache := (refineRanges api s l
              (boundaryRanges coarseHues (fetchBatch api s l coarseHues c []).2.1)
              (fetchBatch api s l coarseHues c []).1
              (fetchBatch api s l coarseHues c []).2.1).1,
            session := (refineRanges api s l
              (boundaryRanges coarseHues (fetchBatch api s l coarseHues c []).2.1)
              (fetchBatch api s l coarseHues c []).1
              (fetchBatch api s l coarseHues c []).2.1).2.1,
            trace := (fetchBatch api s l coarseHues c []).2.2.1 ++
              (refineRanges api s l
                (boundaryRanges coarseHues (fetchBatch api s l coarseHues c []).2.1)
                (fetchBatch api s l coarseHues c []).1
                (fetchBatch api s l coarseHues c []).2.1).2.2.1 }
        | none =>
          { result := .ok (collectDistinct (refineRanges api s l
              (boundaryRanges coarseHues (fetchBatch api s l coarseHues c []).2.1)
              (fetchBatch api s l coarseHues c []).1
              (fetchBatch api s l coarseHues c []).2.1).2.1),
            cache := (refineRanges api s l
              (boundaryRanges coarseHues (fetchBatch api s l coarseHues c []).2.1)
              (fetchBatch api s l coarseHues c []).1
              (fetchBatch api s l coarseHues c []).2.1).1,
            session := (refineRanges api s l
              (boundaryRanges coarseHues (fetchBatch api s l coarseHues c []).2.1)
              (fetchBatch api s l coarseHues c []).1
              (fetchBatch api s l coarseHues c []).2.1).2.1,
            trace := (fetchBatch api s l coarseHues c []).2.2.1 ++
              (refineRanges api s l
                (boundaryRanges coarseHues (fetchBatch api s l coarseHues c []).2.1)
                (fetchBatch api s l coarseHues c []).1
                (fetchBatch api s l coarseHues c []).2.1).2.2.1 } := rfl

theorem fetchDistinctColors_some_eq (api : Api) (s l : Nat) (c : Cache)
    (e : FetchError)
    (herr : (fetchBatch api s l coarseHues c []).2.2.2 = some e) :
    fetchDistinctColors api s l c =
      { result := .error e,
        cache := (fetchBatch api s l coarseHues c []).1,
        session := (fetchBatch api s l coarseHues c []).2.1,
        trace := (fetchBatch api s l coarseHues c []).2.2.1 } := by
  rw [fetchDistinctColors_eq, herr]

theorem fetchDistinctColors_refine_some_eq (api : Api) (s l : Nat)
    (c : Cache) (e : FetchError)
    (herr1 : (fetchBatch api s l coarseHues c []).2.2.2 = none)
    (herr3 : (refineRanges api s l
        (boundaryRanges coarseHues (fetchBatch api s l coarseHues c []).2.1)
        (fetchBatch api s l coarseHues c []).1
        (fetchBatch api s l coarseHues c []).2.1).2.2.2 = some e) :
    fetchDistinctColors api s l c =
      { result := .error e,
        cache := (refineRanges api s l
          (boundaryRanges coarseHues (fetchBatch api s l coarseHues c []).2.1)
          (fetchBatch api s l coarseHues c []).1
          (fetchBatch api s l coarseHues c []).2.1).1,
        session := (refineRanges api s l
          (boundaryRanges coarseHues (fetchBatch api s l coarseHues c []).2.1)
          (fetchBatch api s l coarseHues c []).1
          (fetchBatch api s l coarseHues c []).2.1).2.1,
        trace := (fetchBatch api s l coarseHues c []).2.2.1 ++
          (refineRanges api s l
            (boundaryRanges coarseHues (fetchBatch api s l coarseHues c []).2.1)
            (fetchBatch api s l coarseHues c []).1
            (fetchBatch api s l coarseHues c []).2.1).2.2.1 } := by
  rw [fetchDistinctColors_eq, herr1, herr3]

theorem fetchDistinctColors_ok_eq (api : Api) (s l : Nat) (c : Cache)
    (herr1 : (fetchBatch api s l coarseHues c []).2.2.2 = none)
    (herr3 : (refineRanges api s l
        (boundaryRanges coarseHues (fetchBatch api s l coarseHues c []).2.1)
        (fetchBatch api s l coarseHues c []).1
        (fetchBatch api s l coarseHues c []).2.1).2.2.2 = none) :
    fetchDistinctColors api s l c =
      { result := .ok (collectDistinct (refineRanges api s l
          (boundaryRanges coarseHues (fetchBatch api s l coarseHues c []).2.1)
          (fetchBatch api s l coarseHues c []).1
          (fetchBatch api s l coarseHues c []).2.1).2.1),
        cache := (refineRanges api s l
          (boundaryRanges coarseHues (fetchBatch api s l coarseHues c []).2.1)
          (fetchBatch api s l coarseHues c []).1
          (fetchBatch api s l coarseHues c []).2.1).1,
        session := (refineRanges api s l
          (boundaryRanges coarseHues (fetchBatch api s l coarseHues c []).2.1)
          (fetchBatch api s l coarseHues c []).1
          (fetchBatch api s l coarseHues c []).2.1).2.1,
        trace := (fetchBatch api s l coarseHues c []).2.2.1 ++
          (refineRanges api s l
            (boundaryRanges coarseHues (fetchBatch api s l coarseHues c []).2.1)
            (fetchBatch api s l coarseHues c []).1
            (fetchBatch api s l coarseHues c []).2.1).2.2.1 } := by
  rw [fetchDistinctColors_eq, herr1, herr3]

theorem fetchDistinctColors_goodExt (api : Api) (s l : Nat) (c : Cache) :
    GoodExt api s l c (fetchDistinctColors api s l c).cache := by
  cases herr1 : (fetchBatch api s l coarseHues c []).2.2.2 with
  | some e =>
    rw [fetchDistinctColors_some_eq api s l c e herr1]
    exact fetchBatch_goodExt api s l coarseHues c []
  | none =>
    cases herr3 : (refineRanges api s l
        (boundaryRanges coarseHues (fetchBatch api s l coarseHues c []).2.1)
        (fetchBatch api s l coarseHues c []).1
        (fetchBatch api s l coarseHues c []).2.1).2.2.2 with
    | some e =>
      rw [fetchDistinctColors_refine_some_eq api s l c e herr1 herr3]
      exact (fetchBatch_goodExt api s l coarseHues c []).trans
        (refineRanges_goodExt api s l _ _ _)
    | none =>
      rw [fetchDistinctColors_ok_eq api s l c herr1 herr3]
      exact (fetchBatch_goodExt api s l coarseHues c []).trans
        (refineRanges_goodExt api s l _ _ _)

theorem fetchDistinctColors_err_remote (api : Api) (s l : Nat)
    (c : Cache) (e : FetchError)
    (herr : (fetchDistinctColors api s l c).result = .error e) :
    ∃ h, remoteLookup api h s l = .error e := by
  cases herr1 : (fetchBatch api s l coarseHues c []).2.2.2 with
  | some e₀ =>
    rw [fetchDistinctColors_some_eq api s l c e₀ herr1] at herr
    dsimp only at herr
    cases herr
    obtain ⟨h, _, hres⟩ :=
      fetchBatch_err_some api s l coarseHues c [] e herr1
    exact ⟨h, resolve_error hres⟩
  | none =>
    cases herr3 : (refineRanges api s l
        (boundaryRanges coarseHues (fetchBatch api s l coarseHues c []).2.1)
        (fetchBatch api s l coarseHues c []).1
        (fetchBatch api s l coarseHues c []).2.1).2.2.2 with
    | some e₀ =>
      rw [fetchDistinctColors_refine_some_eq api s l c e₀ herr1 herr3]
        at herr
      dsimp only at herr
      cases herr
      obtain ⟨r, _, h, _, hres⟩ :=
        refineRanges_err_some api s l _ _ _ e herr3
      exact ⟨h, resolve_error hres⟩
    | none =>
      rw [fetchDistinctColors_ok_eq api s l c herr1 herr3] at herr
      dsimp only at herr
      cases herr

theorem fetchDistinctColors_trace_err (api : Api) (s l : Nat)
    (c : Cache) (h : Nat)
    (hmem : h ∈ (fetchDistinctColors api s l c).trace) (e : FetchError)
    (hr : remoteLookup api h s l = .error e) :
    ∃ e', (fetchDistinctColors api s l c).result = .error e' := by
  cases herr1 : (fetchBatch api s l coarseHues c []).2.2.2 with
  | some e₀ =>
    refine ⟨e₀, ?_⟩
    rw [fetchDistinctColors_some_eq api s l c e₀ herr1]
  | none =>
    cases herr3 : (refineRanges api s l
        (boundaryRanges coarseHues (fetchBatch api s l coarseHues c []).2.1)
        (fetchBatch api s l coarseHues c []).1
        (fetchBatch api s l coarseHues c []).2.1).2.2.2 with
    | some e₀ =>
      refine ⟨e₀, ?_⟩
      rw [fetchDistinctColors_refine_some_eq api s l c e₀ herr1 herr3]
    | none =>
      exfalso
      rw [fetchDistinctColors_ok_eq api s l c herr1 herr3] at hmem
      dsimp only at hmem
      rcases List.mem_append.mp hmem with hmem' | hmem'
      · have := fetchBatch_trace_err api s l coarseHues c [] h hmem' e hr
        rw [herr1] at this
        cases this
      · have := refineRanges_trace_err api s l _ _ _ h hmem' e hr
        rw [herr3] at this
        cases this

theorem fetchDistinctColors_trace_ok_cached (api : Api) (s l : Nat)
    (c : Cache) (h : Nat)
    (hmem : h ∈ (fetchDistinctColors api s l c).trace) (d : ColorData)
    (hr : remoteLookup api h s l = .ok d) :
    ListMap.get? (fetchDistinctColors api s l c).cache (cacheKey h s l) =
      some d := by
  cases herr1 : (fetchBatch api s l coarseHues c []).2.2.2 with
  | some e =>
    rw [fetchDistinctColors_some_eq api s l c e herr1] at hmem ⊢
    dsimp only at hmem ⊢
    exact fetchBatch_trace_ok_cached api s l coarseHues c [] h hmem d hr
  | none =>
    cases herr3 : (refineRanges api s l
        (boundaryRanges coarseHues (fetchBatch api s l coarseHues c []).2.1)
        (fetchBatch api s l coarseHues c []).1
        (fetchBatch api s l coarseHues c []).2.1).2.2.2 with
    | some e =>
      rw [fetchDistinctColors_refine_some_eq api s l c e herr1 herr3]
        at hmem ⊢
      dsimp only at hmem ⊢
      rcases List.mem_append.mp hmem with hmem' | hmem'
      · have hcached :=
          fetchBatch_trace_ok_cached api s l coarseHues c [] h hmem' d hr
        exact (refineRanges_goodExt api s l _ _ _).cacheLE _ _ hcached
      · exact refineRanges_trace_ok_cached api s l _ _ _ h hmem' d hr
    | none =>
      rw [fetchDistinctColors_ok_eq api s l c herr1 herr3] at hmem ⊢
      dsimp only at hmem ⊢
      rcases List.mem_append.mp hmem with hmem' | hmem'
      · have hcached :=
          fetchBatch_trace_ok_cached api s l coarseHues c [] h hmem' d hr
        exact (refineRanges_goodExt api s l _ _ _).cacheLE _ _ hcached
      · exact refineRanges_trace_ok_cached api s l _ _ _ h hmem' d hr

theorem fetchDistinctColors_sess_nodup (api : Api) (s l : Nat)
    (c : Cache) :
    (ListMap.keys (fetchDistinctColors api s l c).session).Nodup := by
  have hnil : (ListMap.keys ([] : Session)).Nodup := List.nodup_nil
  cases herr1 : (fetchBatch api s l coarseHues c []).2.2.2 with
  | some e =>
    rw [fetchDistinctColors_some_eq api s l c e herr1]
    exact fetchBatch_sess_nodup api s l coarseHues c [] hnil
  | none =>
    cases herr3 : (refineRanges api s l
        (boundaryRanges coarseHues (fetchBatch api s l coarseHues c []).2.1)
        (fetchBatch api s l coarseHues c []).1
        (fetchBatch api s l coarseHues c []).2.1).2.2.2 with
    | some e =>
      rw [fetchDistinctColors_refine_some_eq api s l c e herr1 herr3]
      exact refineRanges_sess_nodup api s l _ _ _
        (fetchBatch_sess_nodup api s l coarseHues c [] hnil)
    | none =>
      rw [fetchDistinctColors_ok_eq api s l c herr1 herr3]
      exact refineRanges_sess_nodup api s l _ _ _
        (fetchBatch_sess_nodup api s l coarseHues c [] hnil)

theorem fetchDistinctColors_sess_wf (api : Api) (s l : Nat) (c : Cache)
    (hwfc : WFCache c) :
    ∀ h d, ListMap.get? (fetchDistinctColors api s l c).session h =
      some d → d.hue = h := by
  have hnil : ∀ h d, ListMap.get? ([] : Session) h = some d →
      d.hue = h := by
    intro h d hget
    rw [ListMap.get?_nil] at hget
    cases hget
  have hfb := fetchBatch_sess_wf api s l coarseHues c [] hwfc hnil
  cases herr1 : (fetchBatch api s l coarseHues c []).2.2.2 with
  | some e =>
    rw [fetchDistinctColors_some_eq api s l c e herr1]
    exact hfb
  | none =>
    have hwfc' : WFCache (fetchBatch api s l coarseHues c []).1 :=
      hwfc.of_goodExt (fetchBatch_goodExt api s l coarseHues c [])
    cases herr3 : (refineRanges api s l
        (boundaryRanges coarseHues (fetchBatch api s l coarseHues c []).2.1)
        (fetchBatch api s l coarseHues c []).1
        (fetchBatch api s l coarseHues c []).2.1).2.2.2 with
    | some e =>
      rw [fetchDistinctColors_refine_some_eq api s l c e herr1 herr3]
      exact refineRanges_sess_wf api s l _ _ _ hwfc' hfb
    | none =>
      rw [fetchDistinctColors_ok_eq api s l c herr1 herr3]
      exact refineRanges_sess_wf api s l _ _ _ hwfc' hfb

theorem fetchDistinctColors_sess_inv (api : Api) (s l : Nat)
    (c : Cache) :
    ∀ h d, ListMap.get? (fetchDistinctColors api s l c).session h =
      some d → resolve api s l c h = .ok d := by
  have hnil : ∀ h d, ListMap.get? ([] : Session) h = some d →
      resolve api s l c h = .ok d := by
    intro h d hget
    rw [ListMap.get?_nil] at hget
    cases hget
  have hfb := fetchBatch_sess_inv api s l coarseHues c [] hnil
  have hext := fetchBatch_goodExt api s l coarseHues c []
  cases herr1 : (fetchBatch api s l coarseHues c []).2.2.2 with
  | some e =>
    rw [fetchDistinctColors_some_eq api s l c e herr1]
    exact hfb
  | none =>
    have hfb' : ∀ h d,
        ListMap.get? (fetchBatch api s l coarseHues c []).2.1 h = some d →
        resolve api s l (fetchBatch api s l coarseHues c []).1 h =
          .ok d := by
      intro h d hget
      rw [hext.resolve_eq]
      exact hfb h d hget
    cases herr3 : (refineRanges api s l
        (boundaryRanges coarseHues (fetchBatch api s l coarseHues c []).2.1)
        (fetchBatch api s l coarseHues c []).1
        (fetchBatch api s l coarseHues c []).2.1).2.2.2 with
    | some e =>
      rw [fetchDistinctColors_refine_some_eq api s l c e herr1 herr3]
      intro h d hget
      rw [← hext.resolve_eq]
      exact refineRanges_sess_inv api s l _ _ _ hfb' h d hget
    | none =>
      rw [fetchDistinctColors_ok_eq api s l c herr1 herr3]
      intro h d hget
      rw [← hext.resolve_eq]
      exact refineRanges_sess_inv api s l _ _ _ hfb' h d hget

theorem fetchDistinctColors_ok_collect (api : Api) (s l : Nat)
    (c : Cache) (out : List ColorData)
    (hok : (fetchDistinctColors api s l c).result = .ok out) :
    out = collectDistinct (fetchDistinctColors api s l c).session := by
  cases herr1 : (fetchBatch api s l coarseHues c []).2.2.2 with
  | some e =>
    rw [fetchDistinctColors_some_eq api s l c e herr1] at hok
    cases hok
  | none =>
    cases herr3 : (refineRanges api s l
        (boundaryRanges coarseHues (fetchBatch api s l coarseHues c []).2.1)
        (fetchBatch api s l coarseHues c []).1
        (fetchBatch api s l coarseHues c []).2.1).2.2.2 with
    | some e =>
      rw [fetchDistinctColors_refine_some_eq api s l c e herr1 herr3]
        at hok
      cases hok
    | none =>
      rw [fetchDistinctColors_ok_eq api s l c herr1 herr3] at hok ⊢
      dsimp only at hok ⊢
      cases hok
      rfl

/-! ## boundaryRanges lemmas -/

theorem coarseHues_length : coarseHues.length = 36 := by decide

theorem coarseHues_getD : ∀ i, i < 36 → coarseHues.getD i 0 = i * 10 := by
  decide

theorem coarseHues_nodup : coarseHues.Nodup := by decide

theorem coarseHues_lt : ∀ h ∈ coarseHues, h < 360 := by decide

/-- Membership characterization of Phase 2: a range `(a, b)` is recorded
iff `a` and `b` are cyclically adjacent coarse points, both have results
in the session, the label at `a` is not the sentinel, and the labels
differ.  (The label at `b` is not checked against the sentinel.) -/
theorem boundaryRanges_mem (sess : Session) (a b : Nat) :
    (a, b) ∈ boundaryRanges coarseHues sess ↔
      ∃ i, i < 36 ∧ a = i * 10 ∧ b = ((i + 1) % 36) * 10 ∧
        ∃ ca cb, ListMap.get? sess a = some ca ∧
          ListMap.get? sess b = some cb ∧
          ca.name ≠ "Unnamed" ∧ ca.name ≠ cb.name := by
  unfold boundaryRanges
  rw [List.mem_filterMap]
  constructor
  · rintro ⟨i, hi, hf⟩
    rw [coarseHues_length, List.mem_range] at hi
    have hmod : (i + 1) % 36 < 36 := Nat.mod_lt _ (by omega)
    rw [coarseHues_length, coarseHues_getD i hi,
      coarseHues_getD _ hmod] at hf
    dsimp only at hf
    cases hcur : ListMap.get? sess (i * 10) with
    | none => rw [hcur] at hf; cases hf
    | some ca =>
      rw [hcur] at hf
      cases hnxt : ListMap.get? sess ((i + 1) % 36 * 10) with
      | none => rw [hnxt] at hf; cases hf
      | some cb =>
        rw [hnxt] at hf
        dsimp only at hf
        by_cases hcond : ca.name ≠ "Unnamed" ∧ ca.name ≠ cb.name
        · rw [if_pos hcond] at hf
          cases hf
          exact ⟨i, hi, rfl, rfl, ca, cb, hcur, hnxt, hcond.1, hcond.2⟩
        · rw [if_neg hcond] at hf
          cases hf
  · rintro ⟨i, hi, rfl, rfl, ca, cb, hcur, hnxt, h1, h2⟩
    refine ⟨i, ?_, ?_⟩
    · rw [coarseHues_length, List.mem_range]
      exact hi
    · have hmod : (i + 1) % 36 < 36 := Nat.mod_lt _ (by omega)
      rw [coarseHues_length, coarseHues_getD i hi,
        coarseHues_getD _ hmod]
      dsimp only
      rw [hcur, hnxt]
      dsimp only
      rw [if_pos ⟨h1, h2⟩]

theorem boundaryRanges_congr (coarse : List Nat) (s₁ s₂ : Session)
    (h : ∀ x, ListMap.get? s₁ x = ListMap.get? s₂ x) :
    boundaryRanges coarse s₁ = boundaryRanges coarse s₂ := by
  unfold boundaryRanges
  congr 1
  funext i
  simp only [h]

theorem boundaryRanges_lt (sess : Session) :
    ∀ r ∈ boundaryRanges coarseHues sess, r.1 < 360 ∧ r.2 < 360 := by
  rintro ⟨a, b⟩ hr
  obtain ⟨i, hi, rfl, rfl, -⟩ := (boundaryRanges_mem sess a b).mp hr
  have hmod : (i + 1) % 36 < 36 := Nat.mod_lt _ (by omega)
  exact ⟨by omega, by omega⟩

/-! ## interiorHues lemmas -/

/-- The spec's description of a Phase 3 interior point: strictly between
`start` and `stop` on the cyclic [0,360) domain, both ends excluded. -/
def strictlyBetween (start stop p : Nat) : Prop :=
  if stop < start then (start < p ∧ p < 360) ∨ p < stop
  else start < p ∧ p < stop

theorem interiorHues_unfold (st en : Nat) :
    interiorHues (st, en) =
      (List.range' (st + 1)
        ((if en < st then en + 360 else en) - (st + 1))).map
        (fun h => h % 360) := rfl

theorem interiorHues_mem (st en p : Nat) (hs : st < 360)
    (he : en < 360) :
    p ∈ interiorHues (st, en) ↔ strictlyBetween st en p := by
  rw [interiorHues_unfold]
  unfold strictlyBetween
  by_cases hc : en < st
  · rw [if_pos hc, if_pos hc]
    constructor
    · intro hp
      obtain ⟨q, hq, rfl⟩ := List.mem_map.mp hp
      rw [List.mem_range'_1] at hq
      omega
    · intro hp
      rcases hp with ⟨h1, h2⟩ | h1
      · refine List.mem_map.mpr ⟨p, ?_, by omega⟩
        rw [List.mem_range'_1]
        omega
      · refine List.mem_map.mpr ⟨p + 360, ?_, by omega⟩
        rw [List.mem_range'_1]
        omega
  · rw [if_neg hc, if_neg hc]
    constructor
    · intro hp
      obtain ⟨q, hq, rfl⟩ := List.mem_map.mp hp
      rw [List.mem_range'_1] at hq
      omega
    · intro hp
      refine List.mem_map.mpr ⟨p, ?_, by omega⟩
      rw [List.mem_range'_1]
      omega

theorem interiorHues_nodup (st en : Nat) (hs : st < 360)
    (he : en < 360) : (interiorHues (st, en)).Nodup := by
  rw [interiorHues_unfold]
  refine List.Nodup.map_on ?_ (List.nodup_range' _ _)
  intro x hx y hy hf
  rw [List.mem_range'_1] at hx hy
  by_cases hc : en < st
  · rw [if_pos hc] at hx hy
    omega
  · rw [if_neg hc] at hx hy
    omega

/-! ## collectLoop lemmas -/

theorem collectLoop_nil (sess : Session) (seen : List String) :
    collectLoop sess [] seen = [] := rfl

theorem collectLoop_cons (sess : Session) (hue : Nat) (rest : List Nat)
    (seen : List String) :
    collectLoop sess (hue :: rest) seen =
      match ListMap.get? sess hue with
      | none => collectLoop sess rest seen
      | some color =>
        if color.name = "" ∨ color.name = "Unnamed" then
          collectLoop sess rest seen
        else if color.name ∈ seen then
          collectLoop sess rest seen
        else
          color :: collectLoop sess rest (color.name :: seen) := rfl

theorem collectLoop_mem (sess : Session) (hues : List Nat)
    (seen : List String) :
    ∀ cd ∈ collectLoop sess hues seen,
      (∃ h ∈ hues, ListMap.get? sess h = some cd) ∧
      cd.name ≠ "" ∧ cd.name ≠ "Unnamed" ∧ cd.name ∉ seen := by
  induction hues generalizing seen with
  | nil => intro cd hcd; cases hcd
  | cons hue rest ih =>
    intro cd hcd
    rw [collectLoop_cons] at hcd
    cases hget : ListMap.get? sess hue with
    | none =>
      rw [hget] at hcd
      obtain ⟨⟨h, hh, hv⟩, h1, h2, h3⟩ := ih seen cd hcd
      exact ⟨⟨h, List.mem_cons_of_mem _ hh, hv⟩, h1, h2, h3⟩
    | some color =>
      rw [hget] at hcd
      dsimp only at hcd
      by_cases hskip : color.name = "" ∨ color.name = "Unnamed"
      · rw [if_pos hskip] at hcd
        obtain ⟨⟨h, hh, hv⟩, h1, h2, h3⟩ := ih seen cd hcd
        exact ⟨⟨h, List.mem_cons_of_mem _ hh, hv⟩, h1, h2, h3⟩
      · rw [if_neg hskip] at hcd
        by_cases hseen : color.name ∈ seen
        · rw [if_pos hseen] at hcd
          obtain ⟨⟨h, hh, hv⟩, h1, h2, h3⟩ := ih seen cd hcd
          exact ⟨⟨h, List.mem_cons_of_mem _ hh, hv⟩, h1, h2, h3⟩
        · rw [if_neg hseen] at hcd
          rcases List.mem_cons.mp hcd with rfl | hcd'
          · rw [not_or] at hskip
            exact ⟨⟨hue, List.mem_cons_self _ _, hget⟩,
              hskip.1, hskip.2, hseen⟩
          · obtain ⟨⟨h, hh, hv⟩, h1, h2, h3⟩ := ih _ cd hcd'
            refine ⟨⟨h, List.mem_cons_of_mem _ hh, hv⟩, h1, h2, ?_⟩
            intro hmem
            exact h3 (List.mem_cons_of_mem _ hmem)

theorem collectLoop_names_nodup (sess : Session) (hues : List Nat)
    (seen : List String) :
    ((collectLoop sess hues seen).map (fun cd => cd.name)).Nodup := by
  induction hues generalizing seen with
  | nil => exact List.nodup_nil
  | cons hue rest ih =>
    rw [collectLoop_cons]
    cases hget : ListMap.get? sess hue with
    | none => exact ih seen
    | some color =>
      dsimp only
      by_cases hskip : color.name = "" ∨ color.name = "Unnamed"
      · rw [if_pos hskip]
        exact ih seen
      · rw [if_neg hskip]
        by_cases hseen : color.name ∈ seen
        · rw [if_pos hseen]
          exact ih seen
        · rw [if_neg hseen]
          rw [List.map_cons, List.nodup_cons]
          refine ⟨?_, ih _⟩
          intro hmem
          obtain ⟨cd, hcd, hname⟩ := List.mem_map.mp hmem
          have := (collectLoop_mem sess rest (color.name :: seen) cd
            hcd).2.2.2
          rw [hname] at this
          exact this (List.mem_cons_self _ _)

theorem collectLoop_min (sess : Session) (hues : List Nat)
    (seen : List String) (hsorted : List.Sorted (· ≤ ·) hues) :
    ∀ cd ∈ collectLoop sess hues seen,
      ∃ h₀ ∈ hues, ListMap.get? sess h₀ = some cd ∧
        ∀ h ∈ hues, ∀ d, ListMap.get? sess h = some d →
          d.name = cd.name → h₀ ≤ h := by
  induction hues generalizing seen with
  | nil => intro cd hcd; cases hcd
  | cons hue rest ih =>
    intro cd hcd
    have hsorted' := hsorted.tail
    have hle : ∀ h ∈ rest, hue ≤ h := fun h hh =>
      List.rel_of_sorted_cons hsorted h hh
    rw [collectLoop_cons] at hcd
    cases hget : ListMap.get? sess hue with
    | none =>
      rw [hget] at hcd
      obtain ⟨h₀, hh₀, hv₀, hmin⟩ := ih seen hsorted' cd hcd
      refine ⟨h₀, List.mem_cons_of_mem _ hh₀, hv₀, ?_⟩
      intro h hh d hd hname
      rcases List.mem_cons.mp hh with rfl | hh'
      · rw [hget] at hd
        cases hd
      · exact hmin h hh' d hd hname
    | some color =>
      rw [hget] at hcd
      dsimp only at hcd
      by_cases hskip : color.name = "" ∨ color.name = "Unnamed"
      · rw [if_pos hskip] at hcd
        obtain ⟨h₀, hh₀, hv₀, hmin⟩ := ih seen hsorted' cd hcd
        have hcdname := (collectLoop_mem sess rest seen cd hcd).2
        refine ⟨h₀, List.mem_cons_of_mem _ hh₀, hv₀, ?_⟩
        intro h hh d hd hname
        rcases List.mem_cons.mp hh with rfl | hh'
        · rw [hget] at hd
          cases hd
          rcases hskip with hE | hU
          · exact absurd (hname ▸ hE).symm hcdname.1.symm
          · exact absurd (hname ▸ hU).symm hcdname.2.1.symm
        · exact hmin h hh' d hd hname
      · rw [if_neg hskip] at hcd
        by_cases hseen : color.name ∈ seen
        · rw [if_pos hseen] at hcd
          obtain ⟨h₀, hh₀, hv₀, hmin⟩ := ih seen hsorted' cd hcd
          have hcdseen := (collectLoop_mem sess rest seen cd hcd).2.2.2
          refine ⟨h₀, List.mem_cons_of_mem _ hh₀, hv₀, ?_⟩
          intro h hh d hd hname
          rcases List.mem_cons.mp hh with rfl | hh'
          · rw [hget] at hd
            cases hd
            rw [← hname] at hcdseen
            exact absurd hseen hcdseen
          · exact hmin h hh' d hd hname
        · rw [if_neg hseen] at hcd
          rcases List.mem_cons.mp hcd with rfl | hcd'
          · refine ⟨hue, List.mem_cons_self _ _, hget, ?_⟩
            intro h hh d hd hname
            rcases List.mem_cons.mp hh with rfl | hh'
            · exact Nat.le_refl _
            · exact hle h hh'
          · obtain ⟨h₀, hh₀, hv₀, hmin⟩ :=
              ih (color.name :: seen) hsorted' cd hcd'
            have hcdseen := (collectLoop_mem sess rest
              (color.name :: seen) cd hcd').2.2.2
            refine ⟨h₀, List.mem_cons_of_mem _ hh₀, hv₀, ?_⟩
            intro h hh d hd hname
            rcases List.mem_cons.mp hh with rfl | hh'
            · rw [hget] at hd
              cases hd
              rw [← hname] at hcdseen
              exact absurd (List.mem_cons_self _ _) hcdseen
            · exact hmin h hh' d hd hname

theorem collectLoop_congr (s₁ s₂ : Session)
    (h : ∀ x, ListMap.get? s₁ x = ListMap.get? s₂ x) (hues : List Nat)
    (seen : List String) :
    collectLoop s₁ hues seen = collectLoop s₂ hues seen := by
  induction hues generalizing seen with
  | nil => rfl
  | cons hue rest ih =>
    rw [collectLoop_cons, collectLoop_cons, h hue]
    cases ListMap.get? s₂ hue with
    | none => exact ih seen
    | some color =>
      dsimp only
      by_cases hskip : color.name = "" ∨ color.name = "Unnamed"
      · rw [if_pos hskip, if_pos hskip]
        exact ih seen
      · rw [if_neg hskip, if_neg hskip]
        by_cases hseen : color.name ∈ seen
        · rw [if_pos hseen, if_pos hseen]
          exact ih seen
        · rw [if_neg hseen, if_neg hseen]
          rw [ih (color.name :: seen)]

/-- Two sessions with the same lookups and duplicate-free key lists have
the same Phase 4 output. -/
theorem collectDistinct_congr (s₁ s₂ : Session)
    (h : ∀ x, ListMap.get? s₁ x = ListMap.get? s₂ x)
    (h₁ : (ListMap.keys s₁).Nodup) (h₂ : (ListMap.keys s₂).Nodup) :
    collectDistinct s₁ = collectDistinct s₂ := by
  unfold collectDistinct
  have hperm : (ListMap.keys s₁).Perm (ListMap.keys s₂) := by
    refine List.perm_of_nodup_nodup_toFinset_eq h₁ h₂ ?_
    ext a
    simp only [List.mem_toFinset]
    constructor
    · intro ha
      have := ListMap.get?_isSome_of_mem_keys (m := s₁) ha
      rw [h a] at this
      obtain ⟨v, hv⟩ := Option.isSome_iff_exists.mp this
      exact ListMap.get?_mem_keys hv
    · intro ha
      have := ListMap.get?_isSome_of_mem_keys (m := s₂) ha
      rw [← h a] at this
      obtain ⟨v, hv⟩ := Option.isSome_iff_exists.mp this
      exact ListMap.get?_mem_keys hv
  have hsort : (ListMap.keys s₁).insertionSort (· ≤ ·) =
      (ListMap.keys s₂).insertionSort (· ≤ ·) := by
    refine List.eq_of_perm_of_sorted ?_
      (List.sorted_insertionSort _ _) (List.sorted_insertionSort _ _)
    exact ((List.perm_insertionSort _ _).trans hperm).trans
      (List.perm_insertionSort _ _).symm
  rw [hsort, collectLoop_congr s₁ s₂ h]

/-! ## Second-run analysis -/

theorem fetchDistinctColors_ok_errs (api : Api) (s l : Nat) (c : Cache)
    (out : List ColorData)
    (hok : (fetchDistinctColors api s l c).result = .ok out) :
    (fetchBatch api s l coarseHues c []).2.2.2 = none ∧
    (refineRanges api s l
      (boundaryRanges coarseHues (fetchBatch api s l coarseHues c []).2.1)
      (fetchBatch api s l coarseHues c []).1
      (fetchBatch api s l coarseHues c []).2.1).2.2.2 = none := by
  cases herr1 : (fetchBatch api s l coarseHues c []).2.2.2 with
  | some e =>
    rw [fetchDistinctColors_some_eq api s l c e herr1] at hok
    cases hok
  | none =>
    cases herr3 : (refineRanges api s l
        (boundaryRanges coarseHues (fetchBatch api s l coarseHues c []).2.1)
        (fetchBatch api s l coarseHues c []).1
        (fetchBatch api s l coarseHues c []).2.1).2.2.2 with
    | some e =>
      rw [fetchDistinctColors_refine_some_eq api s l c e herr1 herr3]
        at hok
      cases hok
    | none => exact ⟨rfl, rfl⟩

/-- After a successful `fetchDistinctColors` call, a second call with the
same parameters against the resulting cache dispatches nothing, leaves
the cache unchanged, and returns the same list. -/
theorem fetchDistinctColors_twice (api : Api) (s l : Nat) (c₀ : Cache)
    (out : List ColorData)
    (hok : (fetchDistinctColors api s l c₀).result = .ok out) :
    (fetchDistinctColors api s l
      (fetchDistinctColors api s l c₀).cache).result = .ok out ∧
    (fetchDistinctColors api s l
      (fetchDistinctColors api s l c₀).cache).trace = [] ∧
    (fetchDistinctColors api s l
      (fetchDistinctColors api s l c₀).cache).cache =
      (fetchDistinctColors api s l c₀).cache := by
  obtain ⟨herr1, herr3⟩ := fetchDistinctColors_ok_errs api s l c₀ out hok
  -- run-1 components
  have hrun1 := fetchDistinctColors_ok_eq api s l c₀ herr1 herr3
  have hout : out = collectDistinct (refineRanges api s l
      (boundaryRanges coarseHues (fetchBatch api s l coarseHues c₀ []).2.1)
      (fetchBatch api s l coarseHues c₀ []).1
      (fetchBatch api s l coarseHues c₀ []).2.1).2.1 := by
    rw [hrun1] at hok
    cases hok
    rfl
  have hcache1 : (fetchDistinctColors api s l c₀).cache =
      (refineRanges api s l
        (boundaryRanges coarseHues (fetchBatch api s l coarseHues c₀ []).2.1)
        (fetchBatch api s l coarseHues c₀ []).1
        (fetchBatch api s l coarseHues c₀ []).2.1).1 := by
    rw [hrun1]
  rw [hcache1, hout]
  -- facts about run 1
  have hA := fetchBatch_ok api s l coarseHues c₀ [] herr1
  have hB := refineRanges_ok api s l
    (boundaryRanges coarseHues (fetchBatch api s l coarseHues c₀ []).2.1)
    (fetchBatch api s l coarseHues c₀ []).1
    (fetchBatch api s l coarseHues c₀ []).2.1 herr3
  have hextFB := fetchBatch_goodExt api s l coarseHues c₀ []
  have hextRR := refineRanges_goodExt api s l
    (boundaryRanges coarseHues (fetchBatch api s l coarseHues c₀ []).2.1)
    (fetchBatch api s l coarseHues c₀ []).1
    (fetchBatch api s l coarseHues c₀ []).2.1
  have hext03 := hextFB.trans hextRR
  -- every coarse point is cached in the final cache of run 1
  have hA3 : ∀ h ∈ coarseHues, ∃ d,
      resolve api s l c₀ h = .ok d ∧
      ListMap.get? (fetchBatch api s l coarseHues c₀ []).2.1 h = some d ∧
      ListMap.get? (refineRanges api s l
        (boundaryRanges coarseHues (fetchBatch api s l coarseHues c₀ []).2.1)
        (fetchBatch api s l coarseHues c₀ []).1
        (fetchBatch api s l coarseHues c₀ []).2.1).1 (cacheKey h s l) =
        some d := by
    intro h hmem
    obtain ⟨d, hres, hv, hc⟩ := hA h hmem
    exact ⟨d, hres, hv, hextRR.cacheLE _ _ hc⟩
  have hcoarse_cached : ∀ h ∈ coarseHues,
      (ListMap.get? (refineRanges api s l
        (boundaryRanges coarseHues (fetchBatch api s l coarseHues c₀ []).2.1)
        (fetchBatch api s l coarseHues c₀ []).1
        (fetchBatch api s l coarseHues c₀ []).2.1).1
        (cacheKey h s l)).isSome := by
    intro h hmem
    obtain ⟨d, _, _, hc⟩ := hA3 h hmem
    rw [hc]
    rfl
  -- run 2, phase 1: everything cached
  have hfb2 := fetchBatch_all_cached api s l coarseHues
    (refineRanges api s l
      (boundaryRanges coarseHues (fetchBatch api s l coarseHues c₀ []).2.1)
      (fetchBatch api s l coarseHues c₀ []).1
      (fetchBatch api s l coarseHues c₀ []).2.1).1 [] hcoarse_cached
  -- run-2 phase-1 session agrees with run-1 phase-1 session
  have hs1eq : ∀ h,
      ListMap.get? (partitionHues s l (refineRanges api s l
        (boundaryRanges coarseHues (fetchBatch api s l coarseHues c₀ []).2.1)
        (fetchBatch api s l coarseHues c₀ []).1
        (fetchBatch api s l coarseHues c₀ []).2.1).1 coarseHues []).1 h =
      ListMap.get? (fetchBatch api s l coarseHues c₀ []).2.1 h := by
    intro h
    by_cases hmem : h ∈ coarseHues
    · obtain ⟨d, _, hv, hc3⟩ := hA3 h hmem
      rw [hv]
      exact partitionHues_cached s l _ coarseHues [] hc3 hmem
    · rw [partitionHues_not_mem s l _ coarseHues [] hmem,
        fetchBatch_sess_not_mem api s l coarseHues c₀ [] hmem]
  -- run 2 recomputes the same boundary ranges
  have hRGs2 : boundaryRanges coarseHues
      (partitionHues s l (refineRanges api s l
        (boundaryRanges coarseHues (fetchBatch api s l coarseHues c₀ []).2.1)
        (fetchBatch api s l coarseHues c₀ []).1
        (fetchBatch api s l coarseHues c₀ []).2.1).1 coarseHues []).1 =
      boundaryRanges coarseHues (fetchBatch api s l coarseHues c₀ []).2.1 :=
    boundaryRanges_congr coarseHues _ _ hs1eq
  -- all interior points of those ranges are cached in run 1's cache
  have hint_cached : ∀ r ∈ boundaryRanges coarseHues
      (fetchBatch api s l coarseHues c₀ []).2.1, ∀ h ∈ interiorHues r,
      (ListMap.get? (refineRanges api s l
        (boundaryRanges coarseHues (fetchBatch api s l coarseHues c₀ []).2.1)
        (fetchBatch api s l coarseHues c₀ []).1
        (fetchBatch api s l coarseHues c₀ []).2.1).1
        (cacheKey h s l)).isSome := by
    intro r hr h hmem
    obtain ⟨d, _, _, hc⟩ := hB r hr h hmem
    rw [hc]
    rfl
  -- run 2, phase 3: everything cached
  have hrr2 := refineRanges_all_cached api s l
    (boundaryRanges coarseHues (fetchBatch api s l coarseHues c₀ []).2.1)
    (refineRanges api s l
      (boundaryRanges coarseHues (fetchBatch api s l coarseHues c₀ []).2.1)
      (fetchBatch api s l coarseHues c₀ []).1
      (fetchBatch api s l coarseHues c₀ []).2.1).1
    (partitionHues s l (refineRanges api s l
      (boundaryRanges coarseHues (fetchBatch api s l coarseHues c₀ []).2.1)
      (fetchBatch api s l coarseHues c₀ []).1
      (fetchBatch api s l coarseHues c₀ []).2.1).1 coarseHues []).1
    hint_cached
  -- hypotheses of the run-2 unfolding
  have herr1' : (fetchBatch api s l coarseHues (refineRanges api s l
      (boundaryRanges coarseHues (fetchBatch api s l coarseHues c₀ []).2.1)
      (fetchBatch api s l coarseHues c₀ []).1
      (fetchBatch api s l coarseHues c₀ []).2.1).1 []).2.2.2 = none := by
    rw [hfb2]
  have herr3' : (refineRanges api s l
      (boundaryRanges coarseHues (fetchBatch api s l coarseHues
        (refineRanges api s l
          (boundaryRanges coarseHues (fetchBatch api s l coarseHues c₀ []).2.1)
          (fetchBatch api s l coarseHues c₀ []).1
          (fetchBatch api s l coarseHues c₀ []).2.1).1 []).2.1)
      (fetchBatch api s l coarseHues (refineRanges api s l
        (boundaryRanges coarseHues (fetchBatch api s l coarseHues c₀ []).2.1)
        (fetchBatch api s l coarseHues c₀ []).1
        (fetchBatch api s l coarseHues c₀ []).2.1).1 []).1
      (fetchBatch api s l coarseHues (refineRanges api s l
        (boundaryRanges coarseHues (fetchBatch api s l coarseHues c₀ []).2.1)
        (fetchBatch api s l coarseHues c₀ []).1
        (fetchBatch api s l coarseHues c₀ []).2.1).1 []).2.1).2.2.2 =
      none := by
    rw [hfb2]
    dsimp only
    rw [hRGs2]
    exact hrr2.2.2
  rw [fetchDistinctColors_ok_eq api s l _ herr1' herr3']
  dsimp only
  rw [hfb2]
  dsimp only
  rw [hRGs2]
  refine ⟨?_, ?_, ?_⟩
  · -- same output list
    congr 1
    refine collectDistinct_congr _ _ ?_ ?_ ?_
    · -- session maps agree pointwise
      intro h
      -- values in either session are resolve values over c₀
      have hinv1 : ∀ h d, ListMap.get?
          (refineRanges api s l
            (boundaryRanges coarseHues (fetchBatch api s l coarseHues c₀ []).2.1)
            (fetchBatch api s l coarseHues c₀ []).1
            (fetchBatch api s l coarseHues c₀ []).2.1).2.1 h = some d →
          resolve api s l c₀ h = .ok d := by
        have hbase := fetchBatch_sess_inv api s l coarseHues c₀ []
          (by intro h d hget; rw [ListMap.get?_nil] at hget; cases hget)
        have hbase' : ∀ h d, ListMap.get?
            (fetchBatch api s l coarseHues c₀ []).2.1 h = some d →
            resolve api s l (fetchBatch api s l coarseHues c₀ []).1 h =
              .ok d := by
          intro h d hget
          rw [hextFB.resolve_eq]
          exact hbase h d hget
        intro h d hget
        rw [← hextFB.resolve_eq]
        exact refineRanges_sess_inv api s l _ _ _ hbase' h d hget
      have hinv2 : ∀ h d, ListMap.get?
          (refineRanges api s l
            (boundaryRanges coarseHues (fetchBatch api s l coarseHues c₀ []).2.1)
            (refineRanges api s l
              (boundaryRanges coarseHues (fetchBatch api s l coarseHues c₀ []).2.1)
              (fetchBatch api s l coarseHues c₀ []).1
              (fetchBatch api s l coarseHues c₀ []).2.1).1
            (partitionHues s l (refineRanges api s l
              (boundaryRanges coarseHues (fetchBatch api s l coarseHues c₀ []).2.1)
              (fetchBatch api s l coarseHues c₀ []).1
              (fetchBatch api s l coarseHues c₀ []).2.1).1 coarseHues []).1).2.1
          h = some d → resolve api s l c₀ h = .ok d := by
        have hbase : ∀ h d, ListMap.get?
            (partitionHues s l (refineRanges api s l
              (boundaryRanges coarseHues (fetchBatch api s l coarseHues c₀ []).2.1)
              (fetchBatch api s l coarseHues c₀ []).1
              (fetchBatch api s l coarseHues c₀ []).2.1).1 coarseHues []).1
            h = some d →
            resolve api s l (refineRanges api s l
              (boundaryRanges coarseHues (fetchBatch api s l coarseHues c₀ []).2.1)
              (fetchBatch api s l coarseHues c₀ []).1
              (fetchBatch api s l coarseHues c₀ []).2.1).1 h = .ok d := by
          intro h d hget
          rcases partitionHues_cases s l _ coarseHues [] h with hl | ⟨v, hv, hval⟩
          · rw [hl, ListMap.get?_nil] at hget
            cases hget
          · rw [hval] at hget
            cases hget
            unfold resolve
            rw [hv]
        intro h d hget
        rw [← hext03.resolve_eq]
        exact refineRanges_sess_inv api s l _ _ _ hbase h d hget
      -- three-way case analysis on where h lives
      by_cases hmem : h ∈ coarseHues ∨
          ∃ r ∈ boundaryRanges coarseHues
            (fetchBatch api s l coarseHues c₀ []).2.1, h ∈ interiorHues r
      · have hsome2 : ∃ d, ListMap.get?
            (refineRanges api s l
              (boundaryRanges coarseHues (fetchBatch api s l coarseHues c₀ []).2.1)
              (refineRanges api s l
                (boundaryRanges coarseHues (fetchBatch api s l coarseHues c₀ []).2.1)
                (fetchBatch api s l coarseHues c₀ []).1
                (fetchBatch api s l coarseHues c₀ []).2.1).1
              (partitionHues s l (refineRanges api s l
                (boundaryRanges coarseHues (fetchBatch api s l coarseHues c₀ []).2.1)
                (fetchBatch api s l coarseHues c₀ []).1
                (fetchBatch api s l coarseHues c₀ []).2.1).1 coarseHues []).1).2.1
            h = some d := by
          rcases hmem with hmem | ⟨r, hr, hint⟩
          · obtain ⟨d, _, _, hc3⟩ := hA3 h hmem
            have hpart := partitionHues_cached s l _ coarseHues [] hc3 hmem
            exact Option.isSome_iff_exists.mp
              (refineRanges_sess_isSome api s l _ _ _ h
                (by rw [hpart]; rfl))
          · obtain ⟨d, _, hv, _⟩ := refineRanges_ok api s l _ _ _
              hrr2.2.2 r hr h hint
            exact ⟨d, hv⟩
        have hsome1 : ∃ d, ListMap.get?
            (refineRanges api s l
              (boundaryRanges coarseHues (fetchBatch api s l coarseHues c₀ []).2.1)
              (fetchBatch api s l coarseHues c₀ []).1
              (fetchBatch api s l coarseHues c₀ []).2.1).2.1 h = some d := by
          rcases hmem with hmem | ⟨r, hr, hint⟩
          · obtain ⟨d, _, hv, _⟩ := hA h hmem
            exact Option.isSome_iff_exists.mp
              (refineRanges_sess_isSome api s l _ _ _ h
                (by rw [hv]; rfl))
          · obtain ⟨d, _, hv, _⟩ := hB r hr h hint
            exact ⟨d, hv⟩
        obtain ⟨d₂, hd₂⟩ := hsome2
        obtain ⟨d₁, hd₁⟩ := hsome1
        have hr₂ := hinv2 h d₂ hd₂
        have hr₁ := hinv1 h d₁ hd₁
        rw [hr₁] at hr₂
        cases hr₂
        rw [hd₂, hd₁]
      · push_neg at hmem
        obtain ⟨hnc, hni⟩ := hmem
        rw [refineRanges_sess_not_mem api s l _ _ _ h hni,
          refineRanges_sess_not_mem api s l _ _ _ h hni,
          fetchBatch_sess_not_mem api s l coarseHues c₀ [] hnc,
          partitionHues_not_mem s l _ coarseHues [] hnc]
    · -- run-2 session keys are duplicate-free
      exact refineRanges_sess_nodup api s l _ _ _
        (partitionHues_keys_nodup s l _ coarseHues [] List.nodup_nil)
    · -- run-1 session keys are duplicate-free
      exact refineRanges_sess_nodup api s l _ _ _
        (fetchBatch_sess_nodup api s l coarseHues c₀ [] List.nodup_nil)
  · -- no remote dispatches in run 2
    rw [hrr2.2.1]
    simp
  · -- cache unchanged in run 2
    rw [hrr2.1]

/-! ## Run-level trace lemmas -/

/-- The hues dispatched by one `fetchDistinctColors` call are pairwise
distinct: no query is ever issued twice within a call. -/
theorem fetchDistinctColors_trace_nodup (api : Api) (s l : Nat)
    (c : Cache) : (fetchDistinctColors api s l c).trace.Nodup := by
  have ht1 : (fetchBatch api s l coarseHues c []).2.2.1.Nodup := by
    refine (fetchBatch_trace_sublist api s l coarseHues c []).nodup ?_
    rw [partitionHues_batch]
    exact (List.filter_sublist _).nodup coarseHues_nodup
  cases herr1 : (fetchBatch api s l coarseHues c []).2.2.2 with
  | some e =>
    rw [fetchDistinctColors_some_eq api s l c e herr1]
    exact ht1
  | none =>
    have hrnodup : ∀ r ∈ boundaryRanges coarseHues
        (fetchBatch api s l coarseHues c []).2.1,
        (interiorHues r).Nodup := by
      intro r hr
      obtain ⟨h1, h2⟩ := boundaryRanges_lt _ r hr
      exact interiorHues_nodup r.1 r.2 h1 h2
    have ht3 := refineRanges_trace_nodup api s l
      (boundaryRanges coarseHues (fetchBatch api s l coarseHues c []).2.1)
      (fetchBatch api s l coarseHues c []).1
      (fetchBatch api s l coarseHues c []).2.1 hrnodup
    have hdisj : ∀ h ∈ (fetchBatch api s l coarseHues c []).2.2.1,
        h ∉ (refineRanges api s l
          (boundaryRanges coarseHues (fetchBatch api s l coarseHues c []).2.1)
          (fetchBatch api s l coarseHues c []).1
          (fetchBatch api s l coarseHues c []).2.1).2.2.1 := by
      intro h hmem₁ hmem₂
      have hin : h ∈ coarseHues :=
        (fetchBatch_trace_uncached api s l coarseHues c [] h hmem₁).2
      obtain ⟨d, -, -, hcval⟩ :=
        fetchBatch_ok api s l coarseHues c [] herr1 h hin
      have hun := (refineRanges_trace_uncached api s l
        (boundaryRanges coarseHues (fetchBatch api s l coarseHues c []).2.1)
        (fetchBatch api s l coarseHues c []).1
        (fetchBatch api s l coarseHues c []).2.1 h hmem₂).1
      rw [hcval] at hun
      cases hun
    cases herr3 : (refineRanges api s l
        (boundaryRanges coarseHues (fetchBatch api s l coarseHues c []).2.1)
        (fetchBatch api s l coarseHues c []).1
        (fetchBatch api s l coarseHues c []).2.1).2.2.2 with
    | some e =>
      rw [fetchDistinctColors_refine_some_eq api s l c e herr1 herr3]
      dsimp only
      rw [List.nodup_append]
      exact ⟨ht1, ht3, fun h hm1 hm2 => hdisj h hm1 hm2⟩
    | none =>
      rw [fetchDistinctColors_ok_eq api s l c herr1 herr3]
      dsimp only
      rw [List.nodup_append]
      exact ⟨ht1, ht3, fun h hm1 hm2 => hdisj h hm1 hm2⟩

/-- A lookup whose key is already cached returns the cached value and
leaves the cache untouched. -/
theorem fetchColorData_cached {api : Api} {h s l : Nat} {c : Cache}
    {v : ColorData} (hc : ListMap.get? c (cacheKey h s l) = some v) :
    fetchColorData api h s l c = (.ok v, c) := by
  unfold fetchColorData
  simp only [hc]

/-! ## Concrete instances

Concrete classifiers, sessions and caches used to exercise the claim
theorems on closed inputs. -/

/-- A concrete stored result: the record a successful lookup of hue `h`
at saturation 50 / lightness 50 builds when the API answers with an
all-red payload named `nm`. -/
def mkTone (h : Nat) (nm : String) : ColorData :=
  { hue := h, saturation := 50, lightness := 50, name := nm,
    rgb := { red := 255, green := 0, blue := 0 }, hex := "#hex",
    hsl := "hsl" }

/-- A deterministic classifier that always succeeds: hues below 20 are
`"Red"`, the rest `"Orange"`. -/
def apiTwoTone : Api := fun h _ _ =>
  .success (some { rgb := some { red := 255, green := 0, blue := 0 },
                   name := some (some (if h < 20 then "Red" else "Orange")),
                   hex := "#hex", hsl := "hsl" })

/-- A transport whose only failure mode is abort: coarse points (hues
divisible by 10) succeed, every other request rejects with `AbortError`
— cancellation observed exactly when Phase 3 starts refining. -/
def apiC3 : Api := fun h _ _ =>
  if h % 10 = 0 then
    .success (some { rgb := some { red := 255, green := 0, blue := 0 },
                     name := some (some (if h < 20 then "Red" else "Orange")),
                     hex := "#hex", hsl := "hsl" })
  else .aborted

/-- A transport that fails with a network error on every non-coarse
point: the first Phase 3 interior lookup fails. -/
def apiC5 : Api := fun h _ _ =>
  if h % 10 = 0 then
    .success (some { rgb := some { red := 255, green := 0, blue := 0 },
                     name := some (some (if h < 20 then "Red" else "Orange")),
                     hex := "#hex", hsl := "hsl" })
  else .networkFailure

/-- A classifier answering a payload whose name object has no value. -/
def apiNoName : Api := fun _ _ _ =>
  .success (some { rgb := some { red := 1, green := 2, blue := 3 },
                   name := some none, hex := "#abc", hsl := "hsl" })

/-- A classifier answering `"Blue"` everywhere (used as the second,
disagreeing writer in the cache-idempotence witness). -/
def apiBlueConst : Api := fun _ _ _ =>
  .success (some { rgb := some { red := 0, green := 0, blue := 255 },
                   name := some (some "Blue"), hex := "#hex",
                   hsl := "hsl" })

/-- An already-cancelled token: every request rejects with
`AbortError`. -/
def apiAbortAll : Api := fun _ _ _ => .aborted

/-- A coarse-phase session with `"Red"` at hue 0 and the sentinel
`"Unnamed"` at every other coarse point. -/
def sessC1 : Session :=
  coarseHues.map (fun h => (h, mkTone h (if h = 0 then "Red" else "Unnamed")))

/-- The coarse-phase session of the C8 scenario: `"Red"` at hues 0 and
10 and `"Orange"` at every other coarse point. -/
def sessC8 : Session :=
  coarseHues.map (fun h => (h, mkTone h (if h ≤ 10 then "Red" else "Orange")))

/-- A cache holding a `"Red"` result for every coarse point at
saturation 50 / lightness 50. -/
def cacheRed : Cache :=
  coarseHues.map (fun h => (cacheKey h 50 50, mkTone h "Red"))

/-- Every error of the abort-only transport is an abort. -/
theorem apiC3_abort_only (h : Nat) (e : FetchError)
    (hr : remoteLookup apiC3 h 50 50 = .error e) : e = .abortError := by
  unfold remoteLookup apiC3 at hr
  by_cases hmod : h % 10 = 0
  · rw [if_pos hmod] at hr
    exact Except.noConfusion hr
  · rw [if_neg hmod] at hr
    injection hr with h'
    exact h'.symm

/-! ## Claim theorems -/

/-- C1 counterexample: with `"Red"` at coarse point 0 and the sentinel
`"Unnamed"` at every other coarse point, Phase 2 records the range
(0, 10) even though the second point's label is the sentinel — the code
compares only the first point's label against `"Unnamed"`, so the
claim's "no range is recorded when either point's label is the
sentinel" fails. -/
theorem c1_counterexample :
    boundaryRanges coarseHues sessC1 = [(0, 10)] ∧
    ListMap.get? sessC1 0 = some (mkTone 0 "Red") ∧
    ListMap.get? sessC1 10 = some (mkTone 10 "Unnamed") ∧
    (mkTone 10 "Unnamed").name = "Unnamed" :=
  ⟨by decide, by decide, by decide, rfl⟩

/-- C1 (corrected): a pair `(a, b)` is recorded by Phase 2 iff `a` and
`b` are cyclically adjacent coarse points, both have results in the
session, the FIRST point's label is not the sentinel `"Unnamed"`, and
the two labels differ.  The second point's label is never compared
against the sentinel, so a range ending at an `"Unnamed"` point can be
recorded. -/
theorem c1_boundary_recorded_iff (sess : Session) (a b : Nat) :
    (a, b) ∈ boundaryRanges coarseHues sess ↔
      ∃ i, i < 36 ∧ a = i * 10 ∧ b = ((i + 1) % 36) * 10 ∧
        ∃ ca cb, ListMap.get? sess a = some ca ∧
          ListMap.get? sess b = some cb ∧
          ca.name ≠ "Unnamed" ∧ ca.name ≠ cb.name :=
  boundaryRanges_mem sess a b

/-- C2: the cache write is idempotent at the `fetchColorData` level.
Once a first call has stored `d₁` under a key, the key stays bound to
`d₁`; a later call for the same key — even against a remote classifier
that would answer differently — returns `d₁` from the cache and leaves
the cache unchanged (the guarded write never replaces). -/
theorem c2_cache_idempotent (api₁ api₂ : Api) (h s l : Nat) (c₀ : Cache)
    (d₁ : ColorData)
    (hfirst : (fetchColorData api₁ h s l c₀).1 = .ok d₁) :
    ListMap.get? (fetchColorData api₁ h s l c₀).2 (cacheKey h s l) =
      some d₁ ∧
    (fetchColorData api₂ h s l (fetchColorData api₁ h s l c₀).2).1 =
      .ok d₁ ∧
    (fetchColorData api₂ h s l (fetchColorData api₁ h s l c₀).2).2 =
      (fetchColorData api₁ h s l c₀).2 := by
  have hc := fetchColorData_caches_ok hfirst
  have h2 := @fetchColorData_cached api₂ h s l
    (fetchColorData api₁ h s l c₀).2 d₁ hc
  exact ⟨hc, by rw [h2], by rw [h2]⟩

/-- C2 witness: a first store of `"Red"` for hue 0 survives a second
call whose classifier would answer `"Blue"`. -/
theorem c2_witness :
    (fetchColorData apiTwoTone 0 50 50 []).1 = .ok (mkTone 0 "Red") ∧
    (ListMap.get? (fetchColorData apiTwoTone 0 50 50 []).2
        (cacheKey 0 50 50) = some (mkTone 0 "Red") ∧
     (fetchColorData apiBlueConst 0 50 50
        (fetchColorData apiTwoTone 0 50 50 []).2).1 =
       .ok (mkTone 0 "Red") ∧
     (fetchColorData apiBlueConst 0 50 50
        (fetchColorData apiTwoTone 0 50 50 []).2).2 =
       (fetchColorData apiTwoTone 0 50 50 []).2) :=
  ⟨by decide, c2_cache_idempotent apiTwoTone apiBlueConst 0 50 50 []
    (mkTone 0 "Red") (by decide)⟩

/-- C3: if the transport's only failure mode is abort (a cancelled
`AbortSignal`) and an abort is observed on a dispatched lookup of the
call, the call settles with the `AbortError` rejection and never a
result list of any length, every previously cached entry is retained,
and every result fetched successfully by the call is cached and
retrievable afterwards. -/
theorem c3_cancellation_no_partial (api : Api) (s l : Nat) (c : Cache)
    (honly : ∀ h e, remoteLookup api h s l = .error e → e = .abortError)
    (hobs : ∃ h ∈ (fetchDistinctColors api s l c).trace,
      remoteLookup api h s l = .error .abortError) :
    (fetchDistinctColors api s l c).result = .error .abortError ∧
    (∀ out, (fetchDistinctColors api s l c).result ≠ .ok out) ∧
    (∀ k v, ListMap.get? c k = some v →
      ListMap.get? (fetchDistinctColors api s l c).cache k = some v) ∧
    (∀ h ∈ (fetchDistinctColors api s l c).trace, ∀ d,
      remoteLookup api h s l = .ok d →
      ListMap.get? (fetchDistinctColors api s l c).cache (cacheKey h s l) =
        some d) := by
  obtain ⟨h, hmem, habort⟩ := hobs
  obtain ⟨e', herr⟩ :=
    fetchDistinctColors_trace_err api s l c h hmem _ habort
  have he' : e' = .abortError := by
    obtain ⟨h', hr'⟩ := fetchDistinctColors_err_remote api s l c e' herr
    exact honly h' e' hr'
  rw [he'] at herr
  refine ⟨herr, ?_,
    fun k v hv => (fetchDistinctColors_goodExt api s l c).cacheLE k v hv,
    fun h' hm d hr =>
      fetchDistinctColors_trace_ok_cached api s l c h' hm d hr⟩
  intro out hout
  rw [herr] at hout
  cases hout

/-- C3 witness: coarse sampling succeeds, every Phase 3 interior lookup
aborts; the call rejects with `AbortError` and all fetched coarse
results stay retrievable. -/
theorem c3_witness :
    (∃ h ∈ (fetchDistinctColors apiC3 50 50 []).trace,
      remoteLookup apiC3 h 50 50 = .error .abortError) ∧
    ((fetchDistinctColors apiC3 50 50 []).result = .error .abortError ∧
     (∀ out, (fetchDistinctColors apiC3 50 50 []).result ≠ .ok out) ∧
     (∀ k v, ListMap.get? ([] : Cache) k = some v →
       ListMap.get? (fetchDistinctColors apiC3 50 50 []).cache k = some v) ∧
     (∀ h ∈ (fetchDistinctColors apiC3 50 50 []).trace, ∀ d,
       remoteLookup apiC3 h 50 50 = .ok d →
       ListMap.get? (fetchDistinctColors apiC3 50 50 []).cache
         (cacheKey h 50 50) = some d)) :=
  ⟨⟨11, by decide, by decide⟩,
   c3_cancellation_no_partial apiC3 50 50 []
     (fun h e hr => apiC3_abort_only h e hr) ⟨11, by decide, by decide⟩⟩

/-- C4: Phase 3 interior enumeration contains exactly the integer
points strictly between `start` and `end` (both excluded) on the cyclic
[0, 360) hue domain — `strictlyBetween` transcribes the spec's
description, `interiorHues` the code's `end += 360` / `h % 360` loop —
and the wrap-around range (350, 0) enumerates exactly the nine points
351–359. -/
theorem c4_interior_enumeration :
    (∀ st en p, st < 360 → en < 360 →
      (p ∈ interiorHues (st, en) ↔ strictlyBetween st en p)) ∧
    interiorHues (350, 0) =
      [351, 352, 353, 354, 355, 356, 357, 358, 359] :=
  ⟨fun st en p hs he => interiorHues_mem st en p hs he, by decide⟩

/-- C4 witness: the characterization applied at the wrap-around range
(350, 0) and the point 351. -/
theorem c4_witness :
    (351 ∈ interiorHues (350, 0) ↔ strictlyBetween 350 0 351) ∧
    interiorHues (350, 0) =
      [351, 352, 353, 354, 355, 356, 357, 358, 359] :=
  ⟨c4_interior_enumeration.1 350 0 351 (by decide) (by decide),
   c4_interior_enumeration.2⟩

/-- C5: if any dispatched remote lookup of the call fails, the whole
call rejects with a classified error produced by some remote lookup and
returns no result list; no dispatched query is ever repeated (the trace
is duplicate-free, so the failed lookup is not retried); entries cached
before the call are retained and every successful fetch of the call is
cached. -/
theorem c5_failure_aborts (api : Api) (s l : Nat) (c : Cache)
    (hobs : ∃ h ∈ (fetchDistinctColors api s l c).trace, ∃ e,
      remoteLookup api h s l = .error e) :
    (∃ e', (fetchDistinctColors api s l c).result = .error e' ∧
      ∃ h₀, remoteLookup api h₀ s l = .error e') ∧
    (∀ out, (fetchDistinctColors api s l c).result ≠ .ok out) ∧
    (fetchDistinctColors api s l c).trace.Nodup ∧
    (∀ k v, ListMap.get? c k = some v →
      ListMap.get? (fetchDistinctColors api s l c).cache k = some v) ∧
    (∀ h ∈ (fetchDistinctColors api s l c).trace, ∀ d,
      remoteLookup api h s l = .ok d →
      ListMap.get? (fetchDistinctColors api s l c).cache (cacheKey h s l) =
        some d) := by
  obtain ⟨h, hmem, e, herr⟩ := hobs
  obtain ⟨e', hres⟩ :=
    fetchDistinctColors_trace_err api s l c h hmem e herr
  refine ⟨⟨e', hres, fetchDistinctColors_err_remote api s l c e' hres⟩,
    ?_, fetchDistinctColors_trace_nodup api s l c,
    fun k v hv => (fetchDistinctColors_goodExt api s l c).cacheLE k v hv,
    fun h' hm d hr =>
      fetchDistinctColors_trace_ok_cached api s l c h' hm d hr⟩
  intro out hout
  rw [hres] at hout
  cases hout

/-- C5 witness: the first Phase 3 interior lookup (hue 11) fails with a
network error; the call rejects, the trace is duplicate-free, and the
coarse results fetched before the failure are cached. -/
theorem c5_witness :
    (∃ h ∈ (fetchDistinctColors apiC5 50 50 []).trace, ∃ e,
      remoteLookup apiC5 h 50 50 = .error e) ∧
    ((∃ e', (fetchDistinctColors apiC5 50 50 []).result = .error e' ∧
       ∃ h₀, remoteLookup apiC5 h₀ 50 50 = .error e') ∧
     (∀ out, (fetchDistinctColors apiC5 50 50 []).result ≠ .ok out) ∧
     (fetchDistinctColors apiC5 50 50 []).trace.Nodup ∧
     (∀ k v, ListMap.get? ([] : Cache) k = some v →
       ListMap.get? (fetchDistinctColors apiC5 50 50 []).cache k = some v) ∧
     (∀ h ∈ (fetchDistinctColors apiC5 50 50 []).trace, ∀ d,
       remoteLookup apiC5 h 50 50 = .ok d →
       ListMap.get? (fetchDistinctColors apiC5 50 50 []).cache
         (cacheKey h 50 50) = some d)) :=
  ⟨⟨11, by decide, .networkError, by decide⟩,
   c5_failure_aborts apiC5 50 50 []
     ⟨11, by decide, .networkError, by decide⟩⟩

/-- C6: the output of a successful call contains no entry with an empty
or sentinel label, never two entries with the same label, and each
output entry is the session's resolved result at the numerically
smallest hue holding that label (assuming the cache's entries record
their own query, which every cache the program builds does). -/
theorem c6_output_distinct (api : Api) (s l : Nat) (c : Cache)
    (out : List ColorData) (hwf : WFCache c)
    (hok : (fetchDistinctColors api s l c).result = .ok out) :
    (∀ cd ∈ out, cd.name ≠ "" ∧ cd.name ≠ "Unnamed") ∧
    (out.map (fun cd => cd.name)).Nodup ∧
    (∀ cd ∈ out,
      ListMap.get? (fetchDistinctColors api s l c).session cd.hue =
        some cd ∧
      ∀ h d, ListMap.get? (fetchDistinctColors api s l c).session h =
        some d → d.name = cd.name → cd.hue ≤ h) := by
  have hout := fetchDistinctColors_ok_collect api s l c out hok
  have hsorted : List.Sorted (· ≤ ·)
      ((ListMap.keys (fetchDistinctColors api s l c).session).insertionSort
        (· ≤ ·)) := List.sorted_insertionSort _ _
  have hcd : ∀ cd ∈ out, cd ∈ collectLoop
      (fetchDistinctColors api s l c).session
      ((ListMap.keys (fetchDistinctColors api s l c).session).insertionSort
        (· ≤ ·)) [] := by
    intro cd hcd'
    rw [hout] at hcd'
    exact hcd'
  refine ⟨?_, ?_, ?_⟩
  · intro cd hcd'
    have hm := collectLoop_mem _ _ _ cd (hcd cd hcd')
    exact ⟨hm.2.1, hm.2.2.1⟩
  · rw [hout]
    exact collectLoop_names_nodup _ _ _
  · intro cd hcd'
    obtain ⟨h₀, hh₀, hv₀, hmin⟩ :=
      collectLoop_min _ _ [] hsorted cd (hcd cd hcd')
    have hhue : cd.hue = h₀ :=
      fetchDistinctColors_sess_wf api s l c hwf h₀ cd hv₀
    refine ⟨by rw [hhue]; exact hv₀, ?_⟩
    intro h d hget hname
    have hmems : h ∈ (ListMap.keys
        (fetchDistinctColors api s l c).session).insertionSort (· ≤ ·) :=
      (List.mem_insertionSort _).mpr (ListMap.get?_mem_keys hget)
    rw [hhue]
    exact hmin h hmems d hget hname

/-- C6 witness: the two-tone classifier from an empty cache yields
exactly one `"Red"` entry (at hue 0) and one `"Orange"` entry (at hue
20, the smallest orange hue in the session). -/
theorem c6_witness :
    WFCache [] ∧
    (fetchDistinctColors apiTwoTone 50 50 []).result =
      .ok [mkTone 0 "Red", mkTone 20 "Orange"] ∧
    ((∀ cd ∈ [mkTone 0 "Red", mkTone 20 "Orange"],
        cd.name ≠ "" ∧ cd.name ≠ "Unnamed") ∧
     (([mkTone 0 "Red", mkTone 20 "Orange"]).map
        (fun cd => cd.name)).Nodup ∧
     (∀ cd ∈ [mkTone 0 "Red", mkTone 20 "Orange"],
       ListMap.get? (fetchDistinctColors apiTwoTone 50 50 []).session
         cd.hue = some cd ∧
       ∀ h d, ListMap.get?
         (fetchDistinctColors apiTwoTone 50 50 []).session h = some d →
         d.name = cd.name → cd.hue ≤ h)) :=
  ⟨fun k v hv => Option.noConfusion hv, by decide,
   c6_output_distinct apiTwoTone 50 50 []
     [mkTone 0 "Red", mkTone 20 "Orange"]
     (fun k v hv => Option.noConfusion hv) (by decide)⟩

/-- C7: with a deterministic remote classifier (the oracle is a fixed
function) and a first call that succeeds, a second call with the same
parameters against the resulting cache returns the identical result
list, dispatches zero remote lookups, and leaves the cache unchanged —
remote lookups happen only during the first call. -/
theorem c7_second_call_cached (api : Api) (s l : Nat) (c₀ : Cache)
    (out : List ColorData)
    (hok : (fetchDistinctColors api s l c₀).result = .ok out) :
    (fetchDistinctColors api s l
      (fetchDistinctColors api s l c₀).cache).result = .ok out ∧
    (fetchDistinctColors api s l
      (fetchDistinctColors api s l c₀).cache).trace = [] ∧
    (fetchDistinctColors api s l
      (fetchDistinctColors api s l c₀).cache).cache =
      (fetchDistinctColors api s l c₀).cache :=
  fetchDistinctColors_twice api s l c₀ out hok

/-- C7 witness: running discovery twice with the two-tone classifier —
the second run returns the same two colors, dispatches nothing, and
leaves the cache as it was. -/
theorem c7_witness :
    (fetchDistinctColors apiTwoTone 50 50 []).result =
      .ok [mkTone 0 "Red", mkTone 20 "Orange"] ∧
    ((fetchDistinctColors apiTwoTone 50 50
        (fetchDistinctColors apiTwoTone 50 50 []).cache).result =
      .ok [mkTone 0 "Red", mkTone 20 "Orange"] ∧
     (fetchDistinctColors apiTwoTone 50 50
        (fetchDistinctColors apiTwoTone 50 50 []).cache).trace = [] ∧
     (fetchDistinctColors apiTwoTone 50 50
        (fetchDistinctColors apiTwoTone 50 50 []).cache).cache =
       (fetchDistinctColors apiTwoTone 50 50 []).cache) :=
  ⟨by decide, c7_second_call_cached apiTwoTone 50 50 []
    [mkTone 0 "Red", mkTone 20 "Orange"] (by decide)⟩

/-- C8 counterexample: the claim's premise cannot hold, and on its
closest consistent completion the conclusion is wrong.  First half: with
`"Red"` at coarse points 0 and 10 and `"Orange"` everywhere else, Phase
2 records TWO ranges — (10, 20) and the wrap range (350, 0) — and Phase
3 enumerates 351–359 in addition to 11–19.  Second half: no labelling
can satisfy the claim's premise literally, because agreement of all
adjacent pairs other than (0,10) and (10,20) forces the label at 350 to
equal both `"Orange"` (chained from point 20) and `"Red"` (the wrap
pair (350, 0) is one of the "other" pairs required to agree). -/
theorem c8_counterexample :
    (boundaryRanges coarseHues sessC8 = [(10, 20), (350, 0)] ∧
     (boundaryRanges coarseHues sessC8).flatMap interiorHues =
       [11, 12, 13, 14, 15, 16, 17, 18, 19,
        351, 352, 353, 354, 355, 356, 357, 358, 359]) ∧
    ¬ ∃ (sess : Session) (d : Nat → ColorData),
        (∀ i, i < 36 → ListMap.get? sess (i * 10) = some (d i)) ∧
        (d 0).name = "Red" ∧ (d 1).name = "Red" ∧
        (d 2).name = "Orange" ∧
        (∀ i, i < 36 → i ≠ 0 → i ≠ 1 →
          (d i).name ≠ "" ∧ (d i).name = (d ((i + 1) % 36)).name) := by
  refine ⟨⟨by decide, by decide⟩, ?_⟩
  rintro ⟨sess, d, hsess, h0, h1, h2, hagree⟩
  have hchain : ∀ j, j ≤ 33 → (d (2 + j)).name = "Orange" := by
    intro j
    induction j with
    | zero => intro _; exact h2
    | succ n ihn =>
      intro hj
      have hn := ihn (by omega)
      have hstep := (hagree (2 + n) (by omega) (by omega) (by omega)).2
      have hmod : (2 + n + 1) % 36 = 3 + n := by omega
      rw [hmod] at hstep
      have hidx : 2 + (n + 1) = 3 + n := by omega
      rw [hidx, ← hstep]
      exact hn
  have h35 : (d 35).name = "Orange" := by
    have hx := hchain 33 (by omega)
    have hidx : 2 + 33 = 35 := by norm_num
    rw [hidx] at hx
    exact hx
  have hwrap := (hagree 35 (by omega) (by omega) (by omega)).2
  have hmod : (35 + 1) % 36 = 0 := by norm_num
  rw [hmod, h35, h0] at hwrap
  exact absurd hwrap (by decide)

/-- C8 (corrected): in the closest satisfiable version of the scenario
— `"Red"` at coarse points 0 and 10, `"Orange"` at every other coarse
point, so every adjacent pair except (10, 20) and the unavoidable wrap
pair (350, 0) agrees — Phase 2 records exactly the two ranges (10, 20)
and (350, 0), and Phase 3 enumerates exactly the interior points 11–19
and 351–359 (not 11–19 only, as the claim stated). -/
theorem c8_scenario_ranges (sess : Session) (d : Nat → ColorData)
    (hsess : ∀ i, i < 36 → ListMap.get? sess (i * 10) = some (d i))
    (hname : ∀ i, i < 36 →
      (d i).name = if i ≤ 1 then "Red" else "Orange") :
    boundaryRanges coarseHues sess = [(10, 20), (350, 0)] ∧
    (boundaryRanges coarseHues sess).flatMap interiorHues =
      [11, 12, 13, 14, 15, 16, 17, 18, 19,
       351, 352, 353, 354, 355, 356, 357, 358, 359] := by
  have hg : (List.range 36).filterMap
      (fun i : Nat => if i = 1 then some ((10 : Nat), (20 : Nat))
        else if i = 35 then some ((350 : Nat), (0 : Nat)) else none) =
      [(10, 20), (350, 0)] := by decide
  have hmain : boundaryRanges coarseHues sess = [(10, 20), (350, 0)] := by
    unfold boundaryRanges
    rw [coarseHues_length, ← hg]
    refine List.filterMap_congr ?_
    intro i hi
    rw [List.mem_range] at hi
    have hm : (i + 1) % 36 < 36 := Nat.mod_lt _ (by omega)
    simp only [coarseHues_getD i hi, coarseHues_getD _ hm, hsess i hi,
      hsess _ hm, hname i hi, hname _ hm]
    interval_cases i <;> decide
  refine ⟨hmain, ?_⟩
  rw [hmain]
  decide

/-- C8 witness: the corrected scenario instantiated with the concrete
session `sessC8`. -/
theorem c8_witness :
    (∀ i, i < 36 → ListMap.get? sessC8 (i * 10) =
      some ((fun i => mkTone (i * 10)
        (if i ≤ 1 then "Red" else "Orange")) i)) ∧
    (∀ i, i < 36 →
      ((fun i => mkTone (i * 10)
        (if i ≤ 1 then "Red" else "Orange")) i).name =
      if i ≤ 1 then "Red" else "Orange") ∧
    (boundaryRanges coarseHues sessC8 = [(10, 20), (350, 0)] ∧
     (boundaryRanges coarseHues sessC8).flatMap interiorHues =
       [11, 12, 13, 14, 15, 16, 17, 18, 19,
        351, 352, 353, 354, 355, 356, 357, 358, 359]) :=
  ⟨by decide, by decide,
   c8_scenario_ranges sessC8
     (fun i => mkTone (i * 10) (if i ≤ 1 then "Red" else "Orange"))
     (by decide) (by decide)⟩

/-- C9: every result the classifier wrapper returns has a non-empty
label: a missing or empty name value is normalized to the exact
sentinel `"Unnamed"` before being returned; consequently every value a
discovery call writes into the cache or the session map has a non-empty
label (given that the starting cache does, as the empty cache and every
cache the program builds do). -/
theorem c9_name_normalization (api : Api) (s l : Nat) :
    (∀ h d, remoteLookup api h s l = .ok d → d.name ≠ "") ∧
    (∀ h dta rgbv, api h s l = .success (some dta) →
      dta.rgb = some rgbv →
      (dta.name = some none ∨ dta.name = some (some "")) →
      remoteLookup api h s l = .ok
        { hue := h, saturation := s, lightness := l, name := "Unnamed",
          rgb := rgbv, hex := dta.hex, hsl := dta.hsl }) ∧
    (∀ c₀ : Cache, (∀ k v, ListMap.get? c₀ k = some v → v.name ≠ "") →
      (∀ k v, ListMap.get? (fetchDistinctColors api s l c₀).cache k =
        some v → v.name ≠ "") ∧
      (∀ h d, ListMap.get? (fetchDistinctColors api s l c₀).session h =
        some d → d.name ≠ "")) := by
  refine ⟨fun h d hd => (remoteLookup_ok hd).2.2.2, ?_, ?_⟩
  · intro h dta rgbv hapi hrgb hname
    unfold remoteLookup
    rw [hapi]
    dsimp only
    rw [hrgb]
    rcases hname with hn | hn
    · rw [hn]
      rfl
    · rw [hn]
      rfl
  · intro c₀ hclean
    constructor
    · intro k v hv
      rcases (fetchDistinctColors_goodExt api s l c₀).2 k v hv with
        h' | ⟨h₀, -, hr⟩
      · exact hclean k v h'
      · exact (remoteLookup_ok hr).2.2.2
    · intro h d hd
      have hres := fetchDistinctColors_sess_inv api s l c₀ h d hd
      unfold resolve at hres
      cases hc : ListMap.get? c₀ (cacheKey h s l) with
      | some v =>
        rw [hc] at hres
        injection hres with h'
        subst h'
        exact hclean _ _ hc
      | none =>
        rw [hc] at hres
        exact (remoteLookup_ok hres).2.2.2

/-- C9 witness: a payload whose name object has no value is returned
with the exact sentinel label `"Unnamed"`. -/
theorem c9_witness :
    remoteLookup apiNoName 0 50 50 = .ok
      { hue := 0, saturation := 50, lightness := 50, name := "Unnamed",
        rgb := { red := 1, green := 2, blue := 3 }, hex := "#abc",
        hsl := "hsl" } :=
  (c9_name_normalization apiNoName 50 50).2.1 0
    { rgb := some { red := 1, green := 2, blue := 3 }, name := some none,
      hex := "#abc", hsl := "hsl" }
    { red := 1, green := 2, blue := 3 } rfl rfl (Or.inl rfl)

/-- C10: when every coarse point and every interior point of the
resulting boundary ranges is already cached, a discovery call — against
ANY oracle, in particular the already-cancelled token that aborts every
request — dispatches no remote lookups, leaves the cache unchanged, and
succeeds with the collected result list: cancellation is never observed
on a fully-cached path. -/
theorem c10_fully_cached (s l : Nat) (cache : Cache)
    (hc : ∀ h ∈ coarseHues, (ListMap.get? cache (cacheKey h s l)).isSome)
    (hi : ∀ r ∈ boundaryRanges coarseHues
        (partitionHues s l cache coarseHues []).1,
      ∀ h ∈ interiorHues r,
        (ListMap.get? cache (cacheKey h s l)).isSome) :
    ∀ api : Api,
      (fetchDistinctColors api s l cache).trace = [] ∧
      (fetchDistinctColors api s l cache).cache = cache ∧
      (fetchDistinctColors api s l cache).result =
        .ok (collectDistinct (fetchDistinctColors api s l cache).session) := by
  intro api
  have hfb := fetchBatch_all_cached api s l coarseHues cache [] hc
  have herr1 : (fetchBatch api s l coarseHues cache []).2.2.2 = none := by
    rw [hfb]
  have hsess : (fetchBatch api s l coarseHues cache []).2.1 =
      (partitionHues s l cache coarseHues []).1 := by rw [hfb]
  have hcache : (fetchBatch api s l coarseHues cache []).1 = cache := by
    rw [hfb]
  have hfbt : (fetchBatch api s l coarseHues cache []).2.2.1 = [] := by
    rw [hfb]
  have hrr := refineRanges_all_cached api s l
    (boundaryRanges coarseHues (fetchBatch api s l coarseHues cache []).2.1)
    (fetchBatch api s l coarseHues cache []).1
    (fetchBatch api s l coarseHues cache []).2.1
    (by rw [hsess, hcache]; exact hi)
  have herr3 := hrr.2.2
  rw [fetchDistinctColors_ok_eq api s l cache herr1 herr3]
  dsimp only
  refine ⟨?_, ?_, rfl⟩
  · rw [hfbt, hrr.2.1]
    rfl
  · rw [hrr.1]
    exact hcache

/-- C10 witness: a cache holding `"Red"` for all 36 coarse points; the
already-cancelled token never gets a request and the call succeeds. -/
theorem c10_witness :
    (∀ h ∈ coarseHues,
      (ListMap.get? cacheRed (cacheKey h 50 50)).isSome) ∧
    (∀ r ∈ boundaryRanges coarseHues
        (partitionHues 50 50 cacheRed coarseHues []).1,
      ∀ h ∈ interiorHues r,
        (ListMap.get? cacheRed (cacheKey h 50 50)).isSome) ∧
    ((fetchDistinctColors apiAbortAll 50 50 cacheRed).trace = [] ∧
     (fetchDistinctColors apiAbortAll 50 50 cacheRed).cache = cacheRed ∧
     (fetchDistinctColors apiAbortAll 50 50 cacheRed).result =
       .ok (collectDistinct
         (fetchDistinctColors apiAbortAll 50 50 cacheRed).session)) :=
  ⟨by decide, by decide,
   c10_fully_cached 50 50 cacheRed (by decide) (by decide) apiAbortAll⟩

end ColorApi
